import Mathlib

/-!
Verification development for the account-state engine of conflux-rust
(`core/src/state/mod.rs`): the in-memory account cache, the nested
checkpoint / rollback mechanism, the global world-statistics aggregate,
the collateral settlement algorithm, PoS interest accrual and the
commit / state-root computation.

The embedding is a shallow one: Rust structs become Lean structures,
`U256` and `u64` become `Nat` (the places where overflow or underflow
could occur in Rust are guarded by explicit hypotheses in the theorems),
`DbResult` / asserts become `Option`, and the `HashMap`s become
association lists with unique keys.  The two stacks
(`checkpoints` and `world_statistics_checkpoints`) are lists whose HEAD
is the TOP of the stack (Rust pushes/pops at the end of a `Vec`).

`OverlayAccount` / `AccountEntry` internals and `Substate` live in
`account_entry.rs` / `substate.rs`, which are not part of the sources at
hand; those operations are modelled from the specification and are
marked `Modelled from the spec:` in their doc comments.  Everything in
`mod.rs` is translated directly.
-/

namespace ConfluxState

/-- Association-list lookup keyed by decidable equality (model of
`HashMap::get`). -/
def alookup {α β : Type} [DecidableEq α] : List (α × β) → α → Option β
  | [], _ => none
  | (k, v) :: l, a => if a = k then some v else alookup l a

/-- Drop every binding of a key (model of `HashMap::remove` /
`Entry::remove`). -/
def aremove {α β : Type} [DecidableEq α] (k : α) :
    List (α × β) → List (α × β)
  | [] => []
  | (k1, v) :: l => if k1 = k then aremove k l else (k1, v) :: aremove k l

/-- Association-list insert-or-replace (model of `HashMap::insert`);
keeps keys unique. -/
def aset {α β : Type} [DecidableEq α] (k : α) (v : β) (l : List (α × β)) :
    List (α × β) :=
  (k, v) :: aremove k l

/-- Model of `HashMap::entry(k).or_insert(v)`: insert only when the key
is absent. -/
def aorInsert {α β : Type} [DecidableEq α] (k : α) (v : β)
    (l : List (α × β)) : List (α × β) :=
  if (alookup l k).isSome then l else (k, v) :: l

/-- An `Address` of the ledger.  `contractKind` embeds the
type-prefix-of-the-address-bits test `Address::is_contract_address`. -/
structure Address where
  id : Nat
  contractKind : Bool
deriving DecidableEq, Repr

/-- The two coexisting address spaces. -/
inductive Space where
  | native
  | ethereum
deriving DecidableEq, Repr

/-- An address paired with its execution space (`AddressWithSpace`). -/
structure AddressWithSpace where
  address : Address
  space : Space
deriving DecidableEq, Repr

/-- `Address::with_native_space`. -/
def Address.withNativeSpace (a : Address) : AddressWithSpace :=
  ⟨a, Space.native⟩

/-- The zero address. -/
def Address.zeroAddr : Address := ⟨0, false⟩

/-- Sentinel code hash denoting "no code" (`KECCAK_EMPTY`); the hash
value itself is abstracted to `0`. -/
def KECCAK_EMPTY : Nat := 0

/-- CIP-107 storage-point allowance attached to the sponsor info
(`unused` points can still pay for collateral, `used` points currently
back stored data). -/
structure StoragePointsInfo where
  unused : Nat
  used : Nat
deriving DecidableEq, Repr

/-- Sponsor metadata of an account (`SponsorInfo`). -/
structure SponsorInfo where
  sponsorForGas : Address
  sponsorForCollateral : Address
  sponsorGasBound : Nat
  sponsorBalanceForGas : Nat
  sponsorBalanceForCollateral : Nat
  storagePoints : Option StoragePointsInfo
deriving DecidableEq, Repr

/-- The in-memory overlay of one account (`OverlayAccount`).  Storage
writes since load are an association list from storage key to
(value, owner); the deposit and vote lists are `none` until loaded.
`account_entry.rs` is not among the sources; the field set follows the
spec's data model (balance, nonce, code hash/owner, storage write
cache, staking, sponsor info, admin, flags). -/
structure OverlayAccount where
  address : AddressWithSpace
  balance : Nat
  nonce : Nat
  codeHash : Nat
  codeOwner : Address
  admin : Address
  stakingBalance : Nat
  collateralForStorage : Nat
  accumulatedInterestReturn : Nat
  sponsorInfo : SponsorInfo
  storageWrites : List (Nat × (Nat × Address))
  depositList : Option (List (Nat × Nat))
  voteStakeList : Option (List (Nat × Nat))
  cip107Init : Bool
  removedWithoutUpdate : Bool
  invalidatedStorage : Bool
deriving DecidableEq, Repr

/-- The persisted form of an account in the database (`Account`):
the overlay minus its in-memory caches. -/
structure Account where
  balance : Nat
  nonce : Nat
  codeHash : Nat
  codeOwner : Address
  admin : Address
  stakingBalance : Nat
  collateralForStorage : Nat
  accumulatedInterestReturn : Nat
  sponsorInfo : SponsorInfo
deriving DecidableEq, Repr

/-- `OverlayAccount::from_loaded`: wrap a persisted account into an
overlay with empty caches and clear flags. -/
def OverlayAccount.fromLoaded (addr : AddressWithSpace) (a : Account) :
    OverlayAccount :=
  { address := addr
    balance := a.balance
    nonce := a.nonce
    codeHash := a.codeHash
    codeOwner := a.codeOwner
    admin := a.admin
    stakingBalance := a.stakingBalance
    collateralForStorage := a.collateralForStorage
    accumulatedInterestReturn := a.accumulatedInterestReturn
    sponsorInfo := a.sponsorInfo
    storageWrites := []
    depositList := none
    voteStakeList := none
    cip107Init := a.sponsorInfo.storagePoints.isSome
    removedWithoutUpdate := false
    invalidatedStorage := false }

/-- `OverlayAccount::as_account`: project the overlay back to its
persisted form. -/
def OverlayAccount.asAccount (a : OverlayAccount) : Account :=
  { balance := a.balance
    nonce := a.nonce
    codeHash := a.codeHash
    codeOwner := a.codeOwner
    admin := a.admin
    stakingBalance := a.stakingBalance
    collateralForStorage := a.collateralForStorage
    accumulatedInterestReturn := a.accumulatedInterestReturn
    sponsorInfo := a.sponsorInfo }

/-- Modelled from the spec: `OverlayAccount::new_basic`, the stub
account auto-vivified by balance/nonce mutations. -/
def OverlayAccount.newBasic (addr : AddressWithSpace) (balance : Nat) :
    OverlayAccount :=
  { address := addr
    balance := balance
    nonce := 0
    codeHash := KECCAK_EMPTY
    codeOwner := Address.zeroAddr
    admin := Address.zeroAddr
    stakingBalance := 0
    collateralForStorage := 0
    accumulatedInterestReturn := 0
    sponsorInfo :=
      { sponsorForGas := Address.zeroAddr
        sponsorForCollateral := Address.zeroAddr
        sponsorGasBound := 0
        sponsorBalanceForGas := 0
        sponsorBalanceForCollateral := 0
        storagePoints := none }
    storageWrites := []
    depositList := none
    voteStakeList := none
    cip107Init := false
    removedWithoutUpdate := false
    invalidatedStorage := false }

/-- Lifecycle state of a cache slot (`AccountState`). -/
inductive AccountState where
  | Clean
  | Dirty
  | Committed
deriving DecidableEq, Repr

/-- A cache slot (`AccountEntry`): a possibly-absent overlay plus its
lifecycle state.  The `old_balance` field of the source is omitted: it
feeds only the unimplemented/unreachable `kill_garbage`. -/
structure AccountEntry where
  account : Option OverlayAccount
  state : AccountState
deriving DecidableEq, Repr

/-- `AccountEntry::new_clean`. -/
def AccountEntry.newClean (a : Option OverlayAccount) : AccountEntry :=
  ⟨a, AccountState.Clean⟩

/-- `AccountEntry::new_dirty`. -/
def AccountEntry.newDirty (a : Option OverlayAccount) : AccountEntry :=
  ⟨a, AccountState.Dirty⟩

/-- `AccountEntry::is_dirty`. -/
def AccountEntry.isDirty (e : AccountEntry) : Bool :=
  decide (e.state = AccountState.Dirty)

/-- Modelled from the spec: `AccountEntry::clone_dirty`, a value copy of
the slot whose lifecycle state is forced to Dirty (used when capturing a
checkpoint undo record). -/
def AccountEntry.cloneDirty (e : AccountEntry) : AccountEntry :=
  ⟨e.account, AccountState.Dirty⟩

/-- A stored contract-storage cell (`StorageValue`): value plus optional
owner. -/
structure StorageValue where
  value : Nat
  owner : Option Address
deriving DecidableEq, Repr

/-- The persistent key-value store (`StateDb`), restricted to the
interface this core consumes: the account table, the contract-storage
table, and the global scalar counters. -/
structure StateDb where
  accounts : List (AddressWithSpace × Account)
  storageTbl : List ((AddressWithSpace × Nat) × StorageValue)
  annualInterestRate : Nat
  accumulateInterestRate : Nat
  totalIssuedTokens : Nat
  totalStakingTokens : Nat
  totalStorageTokens : Nat
  totalPosStakingTokens : Nat
  distributablePosInterest : Nat
  lastDistributeBlock : Nat
  totalEvmTokens : Nat
  usedStoragePoints : Nat
  convertedStoragePoints : Nat
deriving DecidableEq, Repr

/-- `StateDb::get_account`. -/
def StateDb.getAccount (db : StateDb) (a : AddressWithSpace) :
    Option Account :=
  alookup db.accounts a

/-- Load an account from the database as an overlay
(`db.get_account(address).map(|acc| OverlayAccount::from_loaded(..))`). -/
def dbLoad (db : StateDb) (a : AddressWithSpace) : Option OverlayAccount :=
  (db.getAccount a).map (OverlayAccount.fromLoaded a)

/-- The global economic aggregate (`WorldStatistics`). -/
structure WorldStatistics where
  totalIssuedTokens : Nat
  totalStakingTokens : Nat
  totalStorageTokens : Nat
  interestRatePerBlock : Nat
  accumulateInterestRate : Nat
  totalPosStakingTokens : Nat
  distributablePosInterest : Nat
  lastDistributeBlock : Nat
  totalEvmTokens : Nat
  usedStoragePoints : Nat
  convertedStoragePoints : Nat
deriving DecidableEq, Repr

/-- One checkpoint frame: per-address "prior slot value or absent"
captured at first touch within the scope. -/
abbrev Frame := List (AddressWithSpace × Option AccountEntry)

/-- The account cache: address to slot. -/
abbrev Cache := List (AddressWithSpace × AccountEntry)

/-- The top-level `State`: the database handle, the txpool notification
list (`Ok(account)` is `Sum.inl`, `Err(address)` is `Sum.inr`), the
account cache, the world statistics and the two parallel checkpoint
stacks.  The HEAD of each stack list is the TOP of the stack. -/
structure State where
  db : StateDb
  accountsToNotify : List (Account ⊕ AddressWithSpace)
  cache : Cache
  worldStatistics : WorldStatistics
  worldStatisticsCheckpoints : List WorldStatistics
  checkpoints : List Frame
deriving DecidableEq, Repr

/-- The observable value of an address: the overlay in the cache slot if
one is present (`account = none` meaning "known not to exist"),
otherwise whatever the database holds. -/
def obsOf (db : StateDb) (cache : Cache) (a : AddressWithSpace) :
    Option OverlayAccount :=
  match alookup cache a with
  | some e => e.account
  | none => dbLoad db a

/-- The observable value of an address in a state. -/
def State.obs (s : State) (a : AddressWithSpace) : Option OverlayAccount :=
  obsOf s.db s.cache a

/-! ## Checkpoint API (`State::checkpoint`, `State::discard_checkpoint`,
`State::revert_to_checkpoint`) -/

/-- `State::checkpoint`: push a snapshot of the world statistics and an
empty undo frame; return the index of the new frame (the depth before
the push). -/
def checkpointOp (s : State) : Nat × State :=
  (s.checkpoints.length,
    { s with
      worldStatisticsCheckpoints :=
        s.worldStatistics :: s.worldStatisticsCheckpoints
      checkpoints := [] :: s.checkpoints })

/-- The merge step of `State::discard_checkpoint`: fold the popped
frame's entries into the parent with `entry(k).or_insert(v)`; when the
parent is empty the popped frame replaces it wholesale. -/
def mergeInto (prev top : Frame) : Frame :=
  if prev.isEmpty then top
  else top.foldl (fun acc kv => aorInsert kv.1 kv.2 acc) prev

/-- `State::discard_checkpoint`: pop the top frame (a silent no-op when
no frame exists), pop the paired statistics snapshot without restoring
it, and merge the popped undo entries into the parent frame (parent
entries win). -/
def discardCheckpoint (s : State) : State :=
  match s.checkpoints with
  | [] => s
  | top :: rest =>
    let statsCk := s.worldStatisticsCheckpoints.tail
    match rest with
    | [] =>
      { s with checkpoints := [], worldStatisticsCheckpoints := statsCk }
    | prev :: rest2 =>
      { s with
        checkpoints := mergeInto prev top :: rest2
        worldStatisticsCheckpoints := statsCk }

/-- The per-address action of `State::revert_to_checkpoint`: a recorded
prior slot is written back (occupied slots are overwritten, vacant slots
are inserted); a recorded absence removes the current slot only when it
is Dirty. -/
def applyUndo (k : AddressWithSpace) (u : Option AccountEntry)
    (c : Cache) : Cache :=
  match u with
  | some v => aset k v c
  | none =>
    match alookup c k with
    | some e => if e.state = AccountState.Dirty then aremove k c else c
    | none => c

/-- Replay every undo record of a frame onto the cache. -/
def revertApply (frame : Frame) (cache : Cache) : Cache :=
  frame.foldl (fun c kv => applyUndo kv.1 kv.2 c) cache

/-- `State::revert_to_checkpoint`: a silent no-op when no frame exists;
otherwise pop the top frame, restore the world statistics from the
paired snapshot (`none` models the `expect` abort when the snapshot
stack is out of sync) and undo the frame's records on the cache. -/
def revertToCheckpoint (s : State) : Option State :=
  match s.checkpoints with
  | [] => some s
  | top :: rest =>
    match s.worldStatisticsCheckpoints with
    | [] => none
    | w :: ws =>
      some { s with
             checkpoints := rest
             worldStatisticsCheckpoints := ws
             worldStatistics := w
             cache := revertApply top s.cache }

/-! ## Cache access (`State::read_account_ext`, `State::require_or_set`,
`State::update_cache`) -/

/-- `State::read_account` (i.e. `read_account_ext` with
`RequireCache::None`): a cache hit answers from the slot; a miss loads
the database and inserts a Clean slot
(`insert_cache_if_fresh_account`). -/
def readAccount (s : State) (addr : AddressWithSpace) :
    Option OverlayAccount × State :=
  match alookup s.cache addr with
  | some e => (e.account, s)
  | none =>
    let e := AccountEntry.newClean (dbLoad s.db addr)
    (e.account, { s with cache := aset addr e s.cache })

/-- The shared prefix of `State::require_or_set`: ensure the address is
cached (loading from the database on a miss), capture the pre-mutation
slot into the top checkpoint frame (`entry.or_insert_with(..clone_dirty)`),
and mark the slot Dirty.  Returns the overlay found in the slot (before
any default is applied). -/
def requireBase (s : State) (addr : AddressWithSpace) :
    Option OverlayAccount × State :=
  let cache1 :=
    if (alookup s.cache addr).isSome then s.cache
    else aset addr (AccountEntry.newClean (dbLoad s.db addr)) s.cache
  let checkpoints1 :=
    match s.checkpoints with
    | [] => ([] : List Frame)
    | top :: rest =>
      aorInsert addr ((alookup cache1 addr).map AccountEntry.cloneDirty)
        top :: rest
  let acc := (alookup cache1 addr).bind (fun e => e.account)
  (acc,
    { s with
      cache := aset addr ⟨acc, AccountState.Dirty⟩ cache1
      checkpoints := checkpoints1 })

/-- `State::require_or_set` followed by a caller mutation `f` through
the returned write guard, with a value result.  When the slot holds no
account the `dflt` factory's result is installed first
(`require_or_new_basic_account` passes a stub, `require_exists` passes
`none`, in which case the Dirty empty slot is left behind and the error
result `r0` is returned, mirroring the propagated
`IncompleteDatabase`). -/
def requireOrSetApplyRet {α : Type} (s : State) (addr : AddressWithSpace)
    (dflt : Option OverlayAccount) (f : OverlayAccount → OverlayAccount × α)
    (r0 : α) : Bool × α × State :=
  let (acc, s1) := requireBase s addr
  match acc with
  | some a =>
    let (a2, r) := f a
    (true, r,
      { s1 with cache := aset addr ⟨some a2, AccountState.Dirty⟩ s1.cache })
  | none =>
    match dflt with
    | some d =>
      let (a2, r) := f d
      (true, r,
        { s1 with cache := aset addr ⟨some a2, AccountState.Dirty⟩ s1.cache })
    | none => (false, r0, s1)

/-- `require_or_new_basic_account` + a caller mutation (auto-vivifies a
basic zero-balance account). -/
def requireOrNewApply (s : State) (addr : AddressWithSpace)
    (f : OverlayAccount → OverlayAccount) : State :=
  (requireOrSetApplyRet s addr
    (some (OverlayAccount.newBasic addr 0)) (fun a => (f a, ())) ()).2.2

/-- `require_or_new_basic_account` + a caller mutation that also
returns a value. -/
def requireOrNewApplyRet {α : Type} (s : State) (addr : AddressWithSpace)
    (f : OverlayAccount → OverlayAccount × α) (r0 : α) : α × State :=
  (requireOrSetApplyRet s addr
    (some (OverlayAccount.newBasic addr 0)) f r0).2

/-- `require_exists` + a caller mutation; `none` is the propagated
`IncompleteDatabase` error (the partially mutated state is discarded by
the caller in that case). -/
def requireExistsApplyRet {α : Type} [Inhabited α] (s : State)
    (addr : AddressWithSpace) (f : OverlayAccount → OverlayAccount × α) :
    Option (α × State) :=
  let (ok, r, s1) := requireOrSetApplyRet s addr none f default
  if ok then some (r, s1) else none

/-- `State::update_cache`: insert a fresh Dirty slot and record the
displaced slot (possibly absent) into the top frame.  The source guards
the recording on `is_dirty` of the new entry; every caller passes
`AccountEntry::new_dirty`, so the guard is always taken here. -/
def updateCacheOp (s : State) (addr : AddressWithSpace)
    (acc : Option OverlayAccount) : State :=
  let old := alookup s.cache addr
  let checkpoints1 :=
    match s.checkpoints with
    | [] => ([] : List Frame)
    | top :: rest => aorInsert addr old top :: rest
  { s with
    cache := aset addr (AccountEntry.newDirty acc) s.cache
    checkpoints := checkpoints1 }

/-! ## Protocol constants.  These live in the external `cfx_parameters`
crate; the values are modelled from the spec (their exact magnitudes do
not influence any claim below, only their positivity). -/

/-- Modelled from the spec: one hour-equivalent in blocks. -/
def BLOCKS_PER_HOUR : Nat := 7200

/-- Modelled from the spec: one year-equivalent in blocks. -/
def BLOCKS_PER_YEAR : Nat := 63072000

/-- Modelled from the spec: inverse of the base interest rate. -/
def INVERSE_INTEREST_RATE : Nat := 25

/-- Modelled from the spec: the initial per-block interest rate. -/
def INITIAL_INTEREST_RATE_PER_BLOCK : Nat := 63

/-- Modelled from the spec: scale factor of the per-block interest
rate. -/
def INTEREST_RATE_PER_BLOCK_SCALE : Nat := 1577880000000

/-- Modelled from the spec: token price of one storage collateral
unit, in Drip. -/
def DRIPS_PER_STORAGE_COLLATERAL_UNIT : Nat := 62500000000000000

/-- Modelled from the spec: the maximum reward points of one PoS
term. -/
def MAX_TERM_POINTS : Nat := 6048000000000

/-- The system-storage internal contract address
(`SYSTEM_STORAGE_ADDRESS`); the concrete bits are abstracted. -/
def SYSTEM_STORAGE_ADDRESS : Address := ⟨2088, true⟩

/-- The PoS register internal contract address. -/
def POS_REGISTER_CONTRACT_ADDRESS : Address := ⟨2089, true⟩

/-- The system-storage key of the CIP-107 storage-point proportion
(`storage_point_prop()`); the concrete bytes are abstracted. -/
def STORAGE_POINT_PROP_KEY : Nat := 107

/-- Modelled from the spec: the two long-term-lock genesis allocation
contract addresses. -/
def genesisContractAddressFourYear : AddressWithSpace :=
  ⟨⟨4001, true⟩, Space.native⟩

/-- Modelled from the spec: see `genesisContractAddressFourYear`. -/
def genesisContractAddressTwoYear : AddressWithSpace :=
  ⟨⟨4002, true⟩, Space.native⟩

/-! ## Read-only queries (each may populate the cache with a Clean
slot on a miss, exactly like the source's interior-mutability reads) -/

/-- `State::balance` (via `try_loaded!`: an absent account reads as the
default `0`). -/
def balanceRead (s : State) (addr : AddressWithSpace) : Nat × State :=
  let (acc, s1) := readAccount s addr
  ((acc.map (fun a => a.balance)).getD 0, s1)

/-- `State::nonce`. -/
def nonceRead (s : State) (addr : AddressWithSpace) : Nat × State :=
  let (acc, s1) := readAccount s addr
  ((acc.map (fun a => a.nonce)).getD 0, s1)

/-- `State::token_collateral_for_storage` (native-space read). -/
def tokenCollateralRead (s : State) (addr : Address) : Nat × State :=
  let (acc, s1) := readAccount s addr.withNativeSpace
  ((acc.map (fun a => a.collateralForStorage)).getD 0, s1)

/-- `State::sponsor_balance_for_collateral`. -/
def sponsorBalanceForCollateralRead (s : State) (addr : Address) :
    Nat × State :=
  let (acc, s1) := readAccount s addr.withNativeSpace
  ((acc.map (fun a => a.sponsorInfo.sponsorBalanceForCollateral)).getD 0, s1)

/-- `State::avaliable_storage_point_for_collateral`: the unused part of
the sponsor's storage-point allowance. -/
def availStoragePointsRead (s : State) (addr : Address) : Nat × State :=
  let (acc, s1) := readAccount s addr.withNativeSpace
  ((acc.map (fun a =>
      match a.sponsorInfo.storagePoints with
      | some p => p.unused
      | none => 0)).getD 0, s1)

/-- `State::is_contract_with_code`: native non-contract-kind addresses
answer `false` outright; otherwise the account's code hash is compared
with the empty-code sentinel. -/
def isContractWithCode (s : State) (addr : AddressWithSpace) :
    Bool × State :=
  if addr.space = Space.native ∧ ¬addr.address.contractKind then (false, s)
  else
    let (acc, s1) := readAccount s addr
    ((acc.map (fun a => decide (a.codeHash ≠ KECCAK_EMPTY))).getD false, s1)

/-- Modelled from the spec: `OverlayAccount::storage_at` — the write
cache answers first, then the persistent store (the read cache mirrors
the store and is not modelled separately). -/
def OverlayAccount.storageAt (db : StateDb) (a : OverlayAccount)
    (key : Nat) : Nat :=
  match alookup a.storageWrites key with
  | some (v, _) => v
  | none =>
    match alookup db.storageTbl (a.address, key) with
    | some sv => sv.value
    | none => 0

/-- `State::storage_at` (via `try_loaded!`: an absent account reads as
`0`). -/
def storageAtRead (s : State) (addr : AddressWithSpace) (key : Nat) :
    Nat × State :=
  let (acc, s1) := readAccount s addr
  (match acc with
   | some a => OverlayAccount.storageAt s1.db a key
   | none => 0, s1)

/-- Modelled from the spec: `OverlayAccount::set_storage` records the
(value, owner) pair in the write cache. -/
def OverlayAccount.setStorage (a : OverlayAccount) (key v : Nat)
    (owner : Address) : OverlayAccount :=
  { a with storageWrites := aset key (v, owner) a.storageWrites }

/-- `State::set_storage`: a write is performed only when the current
value differs from the new one; `none` is the propagated error of
`require_exists` on an absent account. -/
def setStorageOp (s : State) (addr : AddressWithSpace) (key v : Nat)
    (owner : Address) : Option State :=
  let (cur, s1) := storageAtRead s addr key
  if cur ≠ v then
    (requireExistsApplyRet s1 addr
      (fun a => (a.setStorage key v owner, ()))).map (fun p => p.2)
  else some s1

/-! ## Collateral and storage-point settlement -/

/-- The used storage points of an account (zero when CIP-107 has not
been initialized for it). -/
def OverlayAccount.usedStoragePoints (a : OverlayAccount) : Nat :=
  match a.sponsorInfo.storagePoints with
  | some p => p.used
  | none => 0

/-- The unused storage points of an account. -/
def OverlayAccount.unusedStoragePoints (a : OverlayAccount) : Nat :=
  match a.sponsorInfo.storagePoints with
  | some p => p.unused
  | none => 0

/-- Modelled from the spec: `OverlayAccount::add_collateral_for_storage`
— charge `by_` Drip of collateral, preferring unused storage points
before tokens; the token part is paid from the collateral sponsor
balance for contracts and from the own balance otherwise.  Returns the
storage-point part of the charge. -/
def OverlayAccount.addCollateral (a : OverlayAccount) (by_ : Nat) :
    OverlayAccount × Nat :=
  let p := min by_ a.unusedStoragePoints
  let tok := by_ - p
  let sp :=
    match a.sponsorInfo.storagePoints with
    | some pts => some { unused := pts.unused - p, used := pts.used + p }
    | none => none
  let a1 :=
    if a.address.address.contractKind then
      { a with
        sponsorInfo :=
          { a.sponsorInfo with
            sponsorBalanceForCollateral :=
              a.sponsorInfo.sponsorBalanceForCollateral - tok
            storagePoints := sp }
        collateralForStorage := a.collateralForStorage + tok }
    else
      { a with
        balance := a.balance - tok
        sponsorInfo := { a.sponsorInfo with storagePoints := sp }
        collateralForStorage := a.collateralForStorage + tok }
  (a1, p)

/-- Modelled from the spec: `OverlayAccount::sub_collateral_for_storage`
— refund `by_` Drip of collateral, preferring storage points before
tokens; the token part goes back to the collateral sponsor balance for
contracts and to the own balance otherwise.  Returns the storage-point
part of the refund. -/
def OverlayAccount.subCollateral (a : OverlayAccount) (by_ : Nat) :
    OverlayAccount × Nat :=
  let p := min by_ a.usedStoragePoints
  let tok := by_ - p
  let sp :=
    match a.sponsorInfo.storagePoints with
    | some pts => some { unused := pts.unused + p, used := pts.used - p }
    | none => none
  let a1 :=
    if a.address.address.contractKind then
      { a with
        sponsorInfo :=
          { a.sponsorInfo with
            sponsorBalanceForCollateral :=
              a.sponsorInfo.sponsorBalanceForCollateral + tok
            storagePoints := sp }
        collateralForStorage := a.collateralForStorage - tok }
    else
      { a with
        balance := a.balance + tok
        sponsorInfo := { a.sponsorInfo with storagePoints := sp }
        collateralForStorage := a.collateralForStorage - tok }
  (a1, p)

/-- Modelled from the spec: the account-level part of CIP-107
initialization — a one-time conversion of the proportion
`prop / (prop + 1)` of the collateral sponsor balance and of the held
token collateral into storage points.  Returns (burnt from balance,
burnt from collateral, new converted-points total contribution). -/
def OverlayAccount.initCip107 (a : OverlayAccount) (prop : Nat) :
    OverlayAccount × (Nat × Nat × Nat) :=
  let fromBalance := a.sponsorInfo.sponsorBalanceForCollateral * prop / (prop + 1)
  let fromCollateral := a.collateralForStorage * prop / (prop + 1)
  let a1 :=
    { a with
      sponsorInfo :=
        { a.sponsorInfo with
          sponsorBalanceForCollateral :=
            a.sponsorInfo.sponsorBalanceForCollateral - fromBalance
          storagePoints :=
            some { unused := fromBalance, used := fromCollateral } }
      collateralForStorage := a.collateralForStorage - fromCollateral
      cip107Init := true }
  (a1, (fromBalance, fromCollateral, fromBalance + fromCollateral))

/-- `State::add_collateral_for_storage`: charge the account (which must
exist) and move the world statistics alongside
(`total_storage_tokens += by - points`, `used_storage_points += points`).
Returns the storage-point part. -/
def addCollateralForStorage (s : State) (addr : Address) (by_ : Nat) :
    Option (Nat × State) :=
  if by_ ≠ 0 then
    match requireExistsApplyRet s addr.withNativeSpace
        (fun a => OverlayAccount.addCollateral a by_) with
    | none => none
    | some (p, s1) =>
      some (p,
        { s1 with
          worldStatistics :=
            { s1.worldStatistics with
              totalStorageTokens :=
                s1.worldStatistics.totalStorageTokens + (by_ - p)
              usedStoragePoints :=
                s1.worldStatistics.usedStoragePoints + p } })
  else some (0, s)

/-- `State::sub_collateral_for_storage`: refund at most the held token
collateral; the excess is burned out of `total_issued_tokens`; the
statistics move alongside.  Returns the storage-point part of the
refund. -/
def subCollateralForStorage (s : State) (addr : Address) (by_ : Nat) :
    Nat × State :=
  let (collateral, s1) := tokenCollateralRead s addr
  let refundable := if by_ > collateral then collateral else by_
  let burnt := by_ - refundable
  let (p, s2) :=
    if refundable ≠ 0 then
      requireOrNewApplyRet s1 addr.withNativeSpace
        (fun a => OverlayAccount.subCollateral a refundable) 0
    else (0, s1)
  (p,
    { s2 with
      worldStatistics :=
        { s2.worldStatistics with
          totalStorageTokens :=
            s2.worldStatistics.totalStorageTokens - (by_ - p)
          usedStoragePoints := s2.worldStatistics.usedStoragePoints - p
          totalIssuedTokens :=
            s2.worldStatistics.totalIssuedTokens - burnt } })

/-- `State::storage_point_prop`: the system-storage cell holding the
CIP-107 proportion. -/
def storagePointPropRead (s : State) : Nat × State :=
  storageAtRead s SYSTEM_STORAGE_ADDRESS.withNativeSpace
    STORAGE_POINT_PROP_KEY

/-- `State::initialize_cip107` (named `initCip107State` here): run the
account-level one-time conversion unless already initialized, then move
the statistics (`total_issued_tokens` and `total_storage_tokens` drop by
the burnt amounts, `used_storage_points` rises by the collateral part,
`converted_storage_points` is overwritten with the reported total).
Returns (burnt from balance, burnt from collateral). -/
def initCip107State (s : State) (addr : Address) : (Nat × Nat) × State :=
  let (prop, s1) := storagePointPropRead s
  let (res, s2) :=
    requireOrNewApplyRet s1 addr.withNativeSpace
      (fun a =>
        if ¬a.cip107Init then
          let (a1, r) := OverlayAccount.initCip107 a prop
          (a1, some r)
        else (a, none))
      none
  match res with
  | some (bb, bc, pts) =>
    ((bb, bc),
      { s2 with
        worldStatistics :=
          { s2.worldStatistics with
            totalIssuedTokens :=
              s2.worldStatistics.totalIssuedTokens - (bb + bc)
            totalStorageTokens :=
              s2.worldStatistics.totalStorageTokens - bc
            usedStoragePoints :=
              s2.worldStatistics.usedStoragePoints + bc
            convertedStoragePoints := pts } })
  | none => ((0, 0), s2)

/-- Modelled from the spec: the `Substate`'s record of
storage-collateral deltas — per address, the (increase, decrease) in
raw storage units. -/
structure Substate where
  collateralDelta : List (Address × (Nat × Nat))
deriving DecidableEq, Repr

/-- Modelled from the spec: `Substate::get_collateral_change`. -/
def Substate.getCollateralChange (sub : Substate) (addr : Address) :
    Nat × Nat :=
  (alookup sub.collateralDelta addr).getD (0, 0)

/-- Modelled from the spec: `Substate::keys_for_collateral_changed`. -/
def Substate.keysForCollateralChanged (sub : Substate) : List Address :=
  sub.collateralDelta.map Prod.fst

/-- The VM spec flags consumed here (`Spec`), reduced to the CIP-107
activation switch. -/
structure VmSpec where
  cip107 : Bool
deriving DecidableEq, Repr

/-- `CollateralCheckResult`. -/
inductive CollateralCheckResult where
  | valid
  | notEnoughBalance (required got : Nat)
  | exceedStorageLimit (limit required : Nat)
deriving DecidableEq, Repr

/-- `State::settle_collateral_for_address`: convert the recorded raw
storage-unit deltas of one touched address into token charges/refunds.
Tracer side effects go to an external observer and are not modelled.
`none` is a propagated database error. -/
def settleCollateralForAddress (s : State) (addr : Address)
    (sub : Substate) (spec : VmSpec) (dryRunNoCharge : Bool) :
    Option (CollateralCheckResult × State) :=
  let incSub := sub.getCollateralChange addr
  let inc := DRIPS_PER_STORAGE_COLLATERAL_UNIT * incSub.1
  let sb := DRIPS_PER_STORAGE_COLLATERAL_UNIT * incSub.2
  let ic := isContractWithCode s addr.withNativeSpace
  let isContract := ic.1
  let s1 := ic.2
  let s2 :=
    if spec.cip107 ∧ addr.contractKind ∧ (sb ≠ 0 ∨ inc ≠ 0) then
      (initCip107State s1 addr).2
    else s1
  let s3 := if sb ≠ 0 then (subCollateralForStorage s2 addr sb).2 else s2
  if inc ≠ 0 ∧ ¬dryRunNoCharge then
    let bs :=
      if isContract then
        let sbc := sponsorBalanceForCollateralRead s3 addr
        let pts := availStoragePointsRead sbc.2 addr
        (sbc.1 + pts.1, pts.2)
      else balanceRead s3 addr.withNativeSpace
    if inc > bs.1 then
      some (CollateralCheckResult.notEnoughBalance inc bs.1, bs.2)
    else
      match addCollateralForStorage bs.2 addr inc with
      | none => none
      | some ps => some (CollateralCheckResult.valid, ps.2)
  else some (CollateralCheckResult.valid, s3)

/-- The loop body of `State::settle_collateral_for_all`: settle each
address in turn, stopping at the first non-`Valid` outcome. -/
def settleAllGo (s : State) (keys : List Address) (sub : Substate)
    (spec : VmSpec) (dryRunNoCharge : Bool) :
    Option (CollateralCheckResult × State) :=
  match keys with
  | [] => some (CollateralCheckResult.valid, s)
  | a :: rest =>
    match settleCollateralForAddress s a sub spec dryRunNoCharge with
    | none => none
    | some (CollateralCheckResult.valid, s1) =>
      settleAllGo s1 rest sub spec dryRunNoCharge
    | some (r, s1) => some (r, s1)

/-- `State::settle_collateral_for_all`. -/
def settleCollateralForAll (s : State) (sub : Substate) (spec : VmSpec)
    (dryRunNoCharge : Bool) : Option (CollateralCheckResult × State) :=
  settleAllGo s sub.keysForCollateralChanged sub spec dryRunNoCharge

/-! ## Integer square root (`sqrt_u256`) -/

/-- `U256::bits`: the position of the highest set bit plus one
(`0` for zero). -/
def bitsU (n : Nat) : Nat := if n = 0 then 0 else Nat.log2 n + 1

/-- One step of the Newton refinement:
`root = (input / root + root) / 2`. -/
def newtonStep (n x : Nat) : Nat := (n / x + x) / 2

/-- The refinement recurrence in unbounded naturals: the mathematical
content of the loop.  The faithful loop `newtonLoop` below runs exactly
this recurrence whenever none of its U256 operations overflows
(`newtonLoop_eq_some`). -/
def newtonIter (n x : Nat) : Nat :=
  if _h : n < x * x then newtonIter n (newtonStep n x) else x
termination_by x
decreasing_by
  have hx : 0 < x := by
    rcases Nat.eq_zero_or_pos x with hx0 | hx0
    · subst hx0; simp at _h
    · exact hx0
  have hdiv : n / x < x := (Nat.div_lt_iff_lt_mul hx).2 _h
  show (n / x + x) / 2 < x
  omega

/-- The refinement loop
`while root * root > input { root = (input / root + root) / 2 }` with
U256 arithmetic: the squaring in the comparison and the sum in the body
are U256 multiplications/additions that panic on overflow (`none`). -/
def newtonLoop (n x : Nat) : Option Nat :=
  if 2 ^ 256 ≤ x * x then none
  else if _h : n < x * x then
    if 2 ^ 256 ≤ n / x + x then none
    else newtonLoop n (newtonStep n x)
  else some x
termination_by x
decreasing_by
  have hx : 0 < x := by
    rcases Nat.eq_zero_or_pos x with hx0 | hx0
    · subst hx0; simp at _h
    · exact hx0
  have hdiv : n / x < x := (Nat.div_lt_iff_lt_mul hx).2 _h
  show (n / x + x) / 2 < x
  omega

/-- The number of iterations of the refinement recurrence `newtonIter`;
on inputs where no loop operation overflows, `newtonLoop` runs exactly
that recurrence through the same successive roots, so this also counts
its executed iterations. -/
def newtonCount (n x : Nat) : Nat :=
  if h : n < x * x then newtonCount n (newtonStep n x) + 1 else 0
termination_by x
decreasing_by
  have hx : 0 < x := by
    rcases Nat.eq_zero_or_pos x with hx0 | hx0
    · subst hx0; simp at h
    · exact hx0
  have hdiv : n / x < x := (Nat.div_lt_iff_lt_mul hx).2 h
  show (n / x + x) / 2 < x
  omega

/-- `sqrt_u256`: inputs of at most 64 bits use the word-size square
root directly; larger inputs start from a most-significant-word
over-estimate and refine it by Newton's method.  `none` models the
panic of an overflowing U256 operation inside the loop (for inputs at
least `(2^32 - 1)^2 * 2^192` the estimate is `2^128` and the first
`root * root` overflows). -/
def sqrt_u256 (input : Nat) : Option Nat :=
  let bits := bitsU input
  if bits ≤ 64 then some (Nat.sqrt input)
  else
    let significant_bits := 64 - bits % 2
    let rest_bits := bits - significant_bits
    let significant_word := input >>> rest_bits
    let init_root := (Nat.sqrt significant_word + 1) <<< (rest_bits / 2)
    newtonLoop input init_root

/-- The number of refinement-recurrence iterations behind `sqrt_u256`
on a given input (equal to the executed loop iterations whenever no
loop operation overflows). -/
def sqrtU256Iters (input : Nat) : Nat :=
  let bits := bitsU input
  if bits ≤ 64 then 0
  else
    let significant_bits := 64 - bits % 2
    let rest_bits := bits - significant_bits
    let significant_word := input >>> rest_bits
    let init_root := (Nat.sqrt significant_word + 1) <<< (rest_bits / 2)
    newtonCount input init_root

/-! ## Interest accrual and distribution -/

/-- `State::bump_block_number_accumulate_interest` (asserts an empty
snapshot stack; `none` models the abort). -/
def bumpBlockNumberAccumulateInterest (s : State) : Option State :=
  if s.worldStatisticsCheckpoints ≠ [] then none
  else
    some { s with
           worldStatistics :=
             { s.worldStatistics with
               accumulateInterestRate :=
                 s.worldStatistics.accumulateInterestRate *
                   (INTEREST_RATE_PER_BLOCK_SCALE +
                     s.worldStatistics.interestRatePerBlock) /
                   INTEREST_RATE_PER_BLOCK_SCALE } }

/-- `State::add_total_issued` (asserts an empty snapshot stack). -/
def addTotalIssued (s : State) (v : Nat) : Option State :=
  if s.worldStatisticsCheckpoints ≠ [] then none
  else
    some { s with
           worldStatistics :=
             { s.worldStatistics with
               totalIssuedTokens :=
                 s.worldStatistics.totalIssuedTokens + v } }

/-- `State::inc_distributable_pos_interest`: the PoS interest accrual.
No-op when the block is more than an hour-equivalent past the last
distribution or when no PoS stake is registered; otherwise the
closed-form interest amount is added to the distributable pool. -/
def incDistributablePosInterest (s : State) (currentBlockNumber : Nat) :
    Option State :=
  if s.worldStatisticsCheckpoints ≠ [] then none
  else if s.worldStatistics.lastDistributeBlock + BLOCKS_PER_HOUR <
      currentBlockNumber then some s
  else if s.worldStatistics.totalPosStakingTokens = 0 then some s
  else
    let (b0, s1) := balanceRead s Address.zeroAddr.withNativeSpace
    let (b4, s2) := balanceRead s1 genesisContractAddressFourYear
    let (b2, s3) := balanceRead s2 genesisContractAddressTwoYear
    let totalCirculating :=
      s3.worldStatistics.totalIssuedTokens - b0 - b4 - b2
    let r := s3.worldStatistics.interestRatePerBlock
    let p1 := totalCirculating * s3.worldStatistics.totalPosStakingTokens
    if 2 ^ 256 ≤ p1 then none
    else
      let p2 := p1 * r
      if 2 ^ 256 ≤ p2 then none
      else
        let p3 := p2 * r
        if 2 ^ 256 ≤ p3 then none
        else
          match sqrt_u256 p3 with
          | none => none
          | some root =>
            let interest :=
              root /
                (BLOCKS_PER_YEAR * INVERSE_INTEREST_RATE *
                  INITIAL_INTEREST_RATE_PER_BLOCK)
            if 2 ^ 256 ≤
                s3.worldStatistics.distributablePosInterest + interest then
              none
            else
              some { s3 with
                     worldStatistics :=
                       { s3.worldStatistics with
                         distributablePosInterest :=
                           s3.worldStatistics.distributablePosInterest +
                             interest } }

/-- `State::exists`. -/
def existsRead (s : State) (addr : AddressWithSpace) : Bool × State :=
  let (acc, s1) := readAccount s addr
  (acc.isSome, s1)

/-- `State::add_balance` with `CleanupMode::ForceCreate` (the mode the
PoS distribution uses): auto-vivify the account even for a zero
amount. -/
def addBalanceForceCreate (s : State) (addr : AddressWithSpace)
    (by_ : Nat) : State :=
  let (ex, s1) := existsRead s addr
  if by_ ≠ 0 ∨ ¬ex then
    requireOrNewApply s1 addr (fun a => { a with balance := a.balance + by_ })
  else s1

/-- `State::add_pos_interest`: mint the interest into the total issued
tokens, the account balance and its interest-receipt record. -/
def addPosInterest (s : State) (addr : Address) (interest : Nat) :
    Option State :=
  let address := addr.withNativeSpace
  match addTotalIssued s interest with
  | none => none
  | some s1 =>
    let s2 := addBalanceForceCreate s1 address interest
    some (requireOrNewApply s2 address
      (fun a =>
        { a with
          accumulatedInterestReturn :=
            a.accumulatedInterestReturn + interest }))

/-- `pos_internal_entries::address_entry`: the storage key of a voter's
payout address, abstracted to the identifier itself. -/
def posAddressEntryKey (identifier : Nat) : Nat := identifier

/-- `Address::from(H256::from_uint(..))`, abstracted: the stored word
becomes a user-kind address. -/
def addressFromUint (v : Nat) : Address := ⟨v, false⟩

/-- The loop of `State::distribute_pos_interest`. -/
def distributeGo (s : State) (pool : Nat) (pts : List (Nat × Nat))
    (acc : List (Address × Nat × Nat)) :
    Option (List (Address × Nat × Nat) × State) :=
  match pts with
  | [] => some (acc.reverse, s)
  | (identifier, points) :: rest =>
    let (addrVal, s1) :=
      storageAtRead s POS_REGISTER_CONTRACT_ADDRESS.withNativeSpace
        (posAddressEntryKey identifier)
    let address := addressFromUint addrVal
    let interest := pool * points / MAX_TERM_POINTS
    match addPosInterest s1 address interest with
    | none => none
    | some s2 =>
      distributeGo s2 pool rest ((address, identifier, interest) :: acc)

/-- `State::distribute_pos_interest` (asserts an empty snapshot stack):
pay each committee member its share of the distributable pool, then
reset the pool and record the distribution block. -/
def distributePosInterest (s : State) (posPoints : List (Nat × Nat))
    (currentBlockNumber : Nat) :
    Option (List (Address × Nat × Nat) × State) :=
  if s.worldStatisticsCheckpoints ≠ [] then none
  else
    match distributeGo s s.worldStatistics.distributablePosInterest
        posPoints [] with
    | none => none
    | some (rewards, s1) =>
      some (rewards,
        { s1 with
          worldStatistics :=
            { s1.worldStatistics with
              distributablePosInterest := 0
              lastDistributeBlock := currentBlockNumber } })

/-! ## Commit and state-root computation -/

/-- A deterministic total order on addresses mirroring the derived
`Ord` used by `sort_by(|a, b| a.0.cmp(&b.0))`. -/
def addrLe (a b : AddressWithSpace) : Bool :=
  if a.address.id ≠ b.address.id then decide (a.address.id < b.address.id)
  else if a.address.contractKind ≠ b.address.contractKind then
    b.address.contractKind
  else a.space = b.space ∨ a.space = Space.native

/-- Insertion step of the deterministic sort. -/
def insertSorted (x : AddressWithSpace × AccountEntry) :
    List (AddressWithSpace × AccountEntry) →
    List (AddressWithSpace × AccountEntry)
  | [] => [x]
  | y :: l => if addrLe x.1 y.1 then x :: y :: l else y :: insertSorted x l

/-- Sort the drained cache by address for deterministic processing. -/
def sortByAddress (l : List (AddressWithSpace × AccountEntry)) :
    List (AddressWithSpace × AccountEntry) :=
  l.foldr insertSorted []

/-- Modelled from the spec: committing one overlay's storage write
cache into the store (zero values delete the cell, others set value and
owner). -/
def commitStorageWrites (addr : AddressWithSpace)
    (writes : List (Nat × (Nat × Address)))
    (tbl : List ((AddressWithSpace × Nat) × StorageValue)) :
    List ((AddressWithSpace × Nat) × StorageValue) :=
  writes.foldl
    (fun t kv =>
      if kv.2.1 = 0 then aremove (addr, kv.1) t
      else aset (addr, kv.1) ⟨kv.2.1, some kv.2.2⟩ t)
    tbl

/-- Modelled from the spec: `OverlayAccount::commit` — flush the
overlay diff (account record and storage writes) into the store. -/
def OverlayAccount.commitAcc (db : StateDb) (addr : AddressWithSpace)
    (a : OverlayAccount) : StateDb :=
  { db with
    storageTbl := commitStorageWrites addr a.storageWrites db.storageTbl
    accounts := aset addr a.asAccount db.accounts }

/-- `State::recycle_storage`: purge the storage sub-tree and the
account record of every killed address. -/
def recycleStorage (db : StateDb) (killed : List AddressWithSpace) :
    StateDb :=
  killed.foldl
    (fun d addr =>
      { d with
        storageTbl := d.storageTbl.filter (fun p => decide (p.1.1 ≠ addr))
        accounts := aremove addr d.accounts })
    db

/-- `State::commit_world_statistics`: flush every aggregate counter to
its scalar slot (the annual rate is the per-block rate scaled back
up). -/
def commitWorldStatistics (db : StateDb) (w : WorldStatistics) : StateDb :=
  { db with
    annualInterestRate := w.interestRatePerBlock * BLOCKS_PER_YEAR
    accumulateInterestRate := w.accumulateInterestRate
    totalIssuedTokens := w.totalIssuedTokens
    totalStakingTokens := w.totalStakingTokens
    totalStorageTokens := w.totalStorageTokens
    totalPosStakingTokens := w.totalPosStakingTokens
    distributablePosInterest := w.distributablePosInterest
    lastDistributeBlock := w.lastDistributeBlock
    totalEvmTokens := w.totalEvmTokens
    usedStoragePoints := w.usedStoragePoints
    convertedStoragePoints := w.convertedStoragePoints }

/-- The per-entry loop of `State::compute_state_root`: skip empty
slots, mark removed-without-update accounts for deletion, commit the
rest; collect the txpool notifications. -/
def commitEntriesGo (db : StateDb)
    (entries : List (AddressWithSpace × AccountEntry))
    (notify : List (Account ⊕ AddressWithSpace))
    (killed : List AddressWithSpace) :
    StateDb × List (Account ⊕ AddressWithSpace) ×
      List AddressWithSpace :=
  match entries with
  | [] => (db, notify, killed)
  | (addr, e) :: rest =>
    match e.account with
    | none => commitEntriesGo db rest notify killed
    | some a =>
      if a.removedWithoutUpdate then
        commitEntriesGo db rest (notify ++ [Sum.inr addr])
          (killed ++ [addr])
      else
        commitEntriesGo (OverlayAccount.commitAcc db addr a) rest
          (notify ++ [Sum.inl a.asAccount]) killed

/-- The store's content-derived commitment: the commitment is a
function of the store contents, modelled as the contents themselves. -/
def computeDbRoot (db : StateDb) : StateDb := db

/-- `State::compute_state_root`: asserts the checkpoint stacks are
empty (`none` models the abort), drains the cache sorted by address,
commits every surviving overlay, purges killed addresses, flushes the
world statistics and returns the store commitment. -/
def computeStateRoot (s : State) : Option (StateDb × State) :=
  if s.checkpoints ≠ [] then none
  else if s.worldStatisticsCheckpoints ≠ [] then none
  else
    let sorted := sortByAddress s.cache
    let res := commitEntriesGo s.db sorted [] []
    let db2 := recycleStorage res.1 res.2.2
    let db3 := commitWorldStatistics db2 s.worldStatistics
    some (computeDbRoot db3,
      { s with
        db := db3
        cache := []
        accountsToNotify := s.accountsToNotify ++ res.2.1 })

/-! ## The mutation language.  Every account-mutating method of the
source factors through these primitives: a `require_*` call followed by
a mutation through the returned write guard, an `update_cache`
insertion of a fresh dirty slot, a cache-populating read, or a world
statistics update performed alongside. -/

/-- One primitive mutation step. -/
inductive Mutation where
  | require (addr : AddressWithSpace) (dflt : Option OverlayAccount)
      (f : OverlayAccount → OverlayAccount)
  | updateCache (addr : AddressWithSpace) (acc : Option OverlayAccount)
  | readTouch (addr : AddressWithSpace)
  | stats (f : WorldStatistics → WorldStatistics)

/-- Run one mutation. -/
def applyMutation (s : State) : Mutation → State
  | Mutation.require addr dflt f =>
    (requireOrSetApplyRet s addr dflt (fun a => (f a, ())) ()).2.2
  | Mutation.updateCache addr acc => updateCacheOp s addr acc
  | Mutation.readTouch addr => (readAccount s addr).2
  | Mutation.stats f => { s with worldStatistics := f s.worldStatistics }

/-- Run a sequence of mutations. -/
def applyMutations (s : State) (ms : List Mutation) : State :=
  ms.foldl applyMutation s

/-! ## Canonical shapes and invariants used by the proofs -/

/-- Left-biased choice on options (the value of a
`HashMap::entry(..).or_insert(..)` merge). -/
def oor {α : Type} (x y : Option α) : Option α :=
  match x with
  | some v => some v
  | none => y

/-- The cache after the on-demand population performed by every read
and by `require_or_set` on a miss. -/
def populateCache (s : State) (addr : AddressWithSpace) : Cache :=
  if (alookup s.cache addr).isSome then s.cache
  else aset addr (AccountEntry.newClean (dbLoad s.db addr)) s.cache

/-- The slot found at an address once the cache has been populated. -/
def popEntry (s : State) (addr : AddressWithSpace) : AccountEntry :=
  (alookup s.cache addr).getD (AccountEntry.newClean (dbLoad s.db addr))

/-- The overlay found in the populated slot. -/
def popAccount (s : State) (addr : AddressWithSpace) :
    Option OverlayAccount :=
  (popEntry s addr).account

/-- The overlay left in a slot by `require_or_set` with default
factory `dflt` and caller mutation `f`. -/
def requireResult (acc : Option OverlayAccount)
    (dflt : Option OverlayAccount) (f : OverlayAccount → OverlayAccount) :
    Option OverlayAccount :=
  match acc with
  | some a => some (f a)
  | none =>
    match dflt with
    | some d => some (f d)
    | none => none

/-- Record an undo value into the top checkpoint frame (first write
wins); no frame, no record. -/
def recordUndo (ckpts : List Frame) (addr : AddressWithSpace)
    (u : Option AccountEntry) : List Frame :=
  match ckpts with
  | [] => []
  | top :: rest => aorInsert addr u top :: rest

/-- The slot left at an address by replaying one undo record (`some`
restores unconditionally, `none` removes only a Dirty slot). -/
def undoResultAt (u : Option AccountEntry) (cur : Option AccountEntry) :
    Option AccountEntry :=
  match u with
  | some v => some v
  | none =>
    match cur with
    | some e => if e.state = AccountState.Dirty then none else some e
    | none => none

/-- Well-formedness of a frame: one undo record per address. -/
def frameKeysNodup (f : Frame) : Prop := (f.map Prod.fst).Nodup

/-- The checkpoint-scope invariant: relative to the cache `cache0` seen
when the scope was opened, the frame either records enough to restore
an address's observable value, or the address's slot is unchanged (up to
Clean on-demand population). -/
def ScopeInv (db : StateDb) (cache0 : Cache) (frame : Frame)
    (cache : Cache) : Prop :=
  ∀ a : AddressWithSpace,
    match alookup frame a with
    | some (some e) =>
      e.account = obsOf db cache0 a ∧
        ∃ c, alookup cache a = some c ∧ c.state = AccountState.Dirty
    | some none =>
      dbLoad db a = obsOf db cache0 a ∧
        ∀ c, alookup cache a = some c →
          (c.state = AccountState.Dirty ∨ c.account = obsOf db cache0 a)
    | none =>
      alookup cache a = alookup cache0 a ∨
        (alookup cache0 a = none ∧
          alookup cache a = some (AccountEntry.newClean (dbLoad db a)))

/-- Cache slots persist and Dirty slots stay Dirty across the mutation
API. -/
def CacheEvolves (c1 c2 : Cache) : Prop :=
  ∀ a e, alookup c1 a = some e →
    ∃ e2, alookup c2 a = some e2 ∧
      (e.state = AccountState.Dirty → e2.state = AccountState.Dirty)

/-- The full invariant of an open checkpoint scope over base state
`s0`. -/
def ScopeFull (s0 s : State) : Prop :=
  s.db = s0.db ∧
  s.worldStatisticsCheckpoints =
    s0.worldStatistics :: s0.worldStatisticsCheckpoints ∧
  ∃ frame,
    s.checkpoints = frame :: s0.checkpoints ∧
    frameKeysNodup frame ∧
    ScopeInv s0.db s0.cache frame s.cache ∧
    CacheEvolves s0.cache s.cache

/-! ## Small concrete fixtures used by the witnesses -/

/-- An empty database. -/
def emptyDb : StateDb :=
  { accounts := []
    storageTbl := []
    annualInterestRate := 0
    accumulateInterestRate := 0
    totalIssuedTokens := 0
    totalStakingTokens := 0
    totalStorageTokens := 0
    totalPosStakingTokens := 0
    distributablePosInterest := 0
    lastDistributeBlock := 0
    totalEvmTokens := 0
    usedStoragePoints := 0
    convertedStoragePoints := 0 }

/-- All-zero world statistics. -/
def zeroStats : WorldStatistics :=
  { totalIssuedTokens := 0
    totalStakingTokens := 0
    totalStorageTokens := 0
    interestRatePerBlock := 0
    accumulateInterestRate := 0
    totalPosStakingTokens := 0
    distributablePosInterest := 0
    lastDistributeBlock := 0
    totalEvmTokens := 0
    usedStoragePoints := 0
    convertedStoragePoints := 0 }

/-- A freshly created state over an empty database. -/
def emptyState : State :=
  { db := emptyDb
    accountsToNotify := []
    cache := []
    worldStatistics := zeroStats
    worldStatisticsCheckpoints := []
    checkpoints := [] }

/-- A sample user address. -/
def addrA : AddressWithSpace := ⟨⟨17, false⟩, Space.native⟩

/-- A sample user address. -/
def addrB : AddressWithSpace := ⟨⟨23, false⟩, Space.native⟩

/-- A sample contract address. -/
def addrC : AddressWithSpace := ⟨⟨2080, true⟩, Space.native⟩

/-! ## Witness fixtures -/

/-- A sample overlay. -/
def accA : OverlayAccount := OverlayAccount.newBasic addrA 100

/-- Another sample overlay. -/
def accB : OverlayAccount := OverlayAccount.newBasic addrA 55

/-- A state whose only cache slot is Clean while the open checkpoint
frame records a different prior slot for the same address. -/
def exC5 : State :=
  { db := emptyDb
    accountsToNotify := []
    cache := [(addrA, AccountEntry.newClean (some accA))]
    worldStatistics := zeroStats
    worldStatisticsCheckpoints := [zeroStats]
    checkpoints := [[(addrA, some (AccountEntry.newDirty (some accB)))]] }

/-- A sample top frame for the discard-merge witness. -/
def exTopFrame : Frame := [(addrA, some (AccountEntry.newDirty (some accB)))]

/-- A sample parent frame for the discard-merge witness (it already
holds an entry for the same address). -/
def exPrevFrame : Frame := [(addrA, some (AccountEntry.newClean (some accA)))]

/-- A state with two open checkpoint frames. -/
def exC2 : State :=
  { emptyState with
    checkpoints := [exTopFrame, exPrevFrame]
    worldStatisticsCheckpoints := [zeroStats, zeroStats] }

/-- A state with one open (empty) checkpoint scope. -/
def exOpenScope : State := (checkpointOp emptyState).2

/-! ## Collateral accounting (C4) -/

/-- The collateral an address currently holds, in Drip-equivalents:
token collateral plus used storage points of its observable overlay. -/
def heldCollateralOf (s : State) (addr : Address) : Nat :=
  match s.obs addr.withNativeSpace with
  | some a => a.collateralForStorage + a.usedStoragePoints
  | none => 0

/-- The pockets a collateral refund is credited to: own balance, the
collateral sponsor balance and the unused storage points. -/
def refundPocketOf (s : State) (addr : Address) : Nat :=
  match s.obs addr.withNativeSpace with
  | some a =>
    a.balance + a.sponsorInfo.sponsorBalanceForCollateral +
      a.unusedStoragePoints
  | none => 0

/-- A persisted account holding some token collateral, for the C4
witness. -/
def exAccountC4 : Account :=
  { balance := 50
    nonce := 0
    codeHash := 0
    codeOwner := Address.zeroAddr
    admin := Address.zeroAddr
    stakingBalance := 0
    collateralForStorage := 10
    accumulatedInterestReturn := 0
    sponsorInfo :=
      { sponsorForGas := Address.zeroAddr
        sponsorForCollateral := Address.zeroAddr
        sponsorGasBound := 0
        sponsorBalanceForGas := 0
        sponsorBalanceForCollateral := 0
        storagePoints := none } }

/-- The plain address underlying `addrA`. -/
def addrU : Address := ⟨17, false⟩

/-- A state whose database holds `exAccountC4` at `addrA` and whose
total issued supply is 100. -/
def exC4 : State :=
  { emptyState with
    db := { emptyDb with accounts := [(addrA, exAccountC4)] }
    worldStatistics := { zeroStats with totalIssuedTokens := 100 } }

/-! ## Settlement decomposition (C3): named forms of the intermediate
quantities of `settle_collateral_for_address`. -/

/-- The token increase charged for an address's recorded
storage-collateral delta. -/
def settleIncrease (sub : Substate) (addr : Address) : Nat :=
  DRIPS_PER_STORAGE_COLLATERAL_UNIT * (sub.getCollateralChange addr).1

/-- The state after the CIP-107 initialization and the refund half of
the settlement, right before the charge half. -/
def settleMidState (s : State) (addr : Address) (sub : Substate)
    (spec : VmSpec) : State :=
  let inc := DRIPS_PER_STORAGE_COLLATERAL_UNIT *
    (sub.getCollateralChange addr).1
  let sb := DRIPS_PER_STORAGE_COLLATERAL_UNIT *
    (sub.getCollateralChange addr).2
  let s1 := (isContractWithCode s addr.withNativeSpace).2
  let s2 :=
    if spec.cip107 ∧ addr.contractKind ∧ (sb ≠ 0 ∨ inc ≠ 0) then
      (initCip107State s1 addr).2
    else s1
  if sb ≠ 0 then (subCollateralForStorage s2 addr sb).2 else s2

/-- The payer's available balance as the charge half computes it —
collateral sponsor balance plus unused storage points for a contract,
the own balance otherwise — together with the state after those
reads. -/
def settleAvailable (s : State) (addr : Address) (sub : Substate)
    (spec : VmSpec) : Nat × State :=
  let s3 := settleMidState s addr sub spec
  if (isContractWithCode s addr.withNativeSpace).1 then
    ((sponsorBalanceForCollateralRead s3 addr).1 +
        (availStoragePointsRead
          (sponsorBalanceForCollateralRead s3 addr).2 addr).1,
      (availStoragePointsRead
        (sponsorBalanceForCollateralRead s3 addr).2 addr).2)
  else balanceRead s3 addr.withNativeSpace

/-- A substate charging one storage unit to `addrU`. -/
def exSubstate : Substate := { collateralDelta := [(addrU, (1, 0))] }

/-! ## PoS interest accrual (C7) -/

/-- The observable balance of an address: the balance of its
observable overlay, `0` for an absent account. -/
def obsBalance (s : State) (a : AddressWithSpace) : Nat :=
  ((s.obs a).map (fun x => x.balance)).getD 0

/-- The circulating supply as `inc_distributable_pos_interest` reads
it: total issued tokens minus the balances of the zero address and the
two long-term-lock genesis allocation contracts. -/
def circulatingTokens (s : State) : Nat :=
  s.worldStatistics.totalIssuedTokens -
    obsBalance s Address.zeroAddr.withNativeSpace -
    obsBalance s genesisContractAddressFourYear -
    obsBalance s genesisContractAddressTwoYear

/-- A state ready for PoS interest accrual: a non-zero PoS stake, a
supply of 100 Drip and an interest pool of 7. -/
def exC7 : State :=
  { emptyState with
    worldStatistics :=
      { zeroStats with
        totalIssuedTokens := 100
        totalPosStakingTokens := 4
        interestRatePerBlock := INITIAL_INTEREST_RATE_PER_BLOCK
        distributablePosInterest := 7 } }

/-- The distributable-interest pool of an optional state. -/
def distributableOf : Option State → Option Nat
  | some s => some s.worldStatistics.distributablePosInterest
  | none => none

/-! # Lemmas -/

/-! ## Association-list lemmas -/

theorem alookup_aremove {α β : Type} [DecidableEq α]
    (k : α) (l : List (α × β)) (a : α) :
    alookup (aremove k l) a = if a = k then none else alookup l a := by
  induction l with
  | nil => simp [aremove, alookup]
  | cons hd tl ih =>
    obtain ⟨k1, v1⟩ := hd
    by_cases hk : k1 = k
    · subst hk
      rw [show aremove k1 ((k1, v1) :: tl) = aremove k1 tl by
        simp [aremove]]
      rw [ih]
      by_cases ha : a = k1
      · simp [ha]
      · simp [ha, alookup]
    · rw [show aremove k ((k1, v1) :: tl) = (k1, v1) :: aremove k tl by
        simp [aremove, hk]]
      by_cases ha : a = k1
      · subst ha
        have hak : a ≠ k := hk
        simp [alookup, hak]
      · simp [alookup, ha, ih]

theorem alookup_aset_self {α β : Type} [DecidableEq α]
    (k : α) (v : β) (l : List (α × β)) : alookup (aset k v l) k = some v := by
  simp [aset, alookup]

theorem alookup_aset_ne {α β : Type} [DecidableEq α]
    (k : α) (v : β) (l : List (α × β)) (a : α) (h : a ≠ k) :
    alookup (aset k v l) a = alookup l a := by
  simp only [aset, alookup, if_neg h]
  rw [alookup_aremove]
  simp [h]

theorem alookup_aorInsert_ne {α β : Type} [DecidableEq α]
    (k : α) (v : β) (l : List (α × β)) (a : α) (h : a ≠ k) :
    alookup (aorInsert k v l) a = alookup l a := by
  unfold aorInsert
  by_cases hs : (alookup l k).isSome
  · simp [hs]
  · simp [hs, alookup, h]

theorem alookup_aorInsert_self {α β : Type} [DecidableEq α]
    (k : α) (v : β) (l : List (α × β)) :
    alookup (aorInsert k v l) k = oor (alookup l k) (some v) := by
  unfold aorInsert
  cases hl : alookup l k with
  | none => simp [hl, alookup, oor]
  | some w => simp [hl, oor]

theorem aremove_aremove {α β : Type} [DecidableEq α]
    (k : α) (l : List (α × β)) : aremove k (aremove k l) = aremove k l := by
  induction l with
  | nil => rfl
  | cons hd tl ih =>
    obtain ⟨k1, v1⟩ := hd
    by_cases hk : k1 = k
    · simp [aremove, hk, ih]
    · simp [aremove, hk, ih]

theorem aset_aset {α β : Type} [DecidableEq α]
    (k : α) (v w : β) (l : List (α × β)) :
    aset k w (aset k v l) = aset k w l := by
  simp [aset, aremove, aremove_aremove]

/-! ## Shape lemmas for the cache-access primitives -/

theorem readAccount_val (s : State) (addr : AddressWithSpace) :
    (readAccount s addr).1 = popAccount s addr := by
  unfold readAccount popAccount popEntry
  cases h : alookup s.cache addr <;> simp [h, AccountEntry.newClean]

theorem readAccount_state (s : State) (addr : AddressWithSpace) :
    (readAccount s addr).2 = { s with cache := populateCache s addr } := by
  unfold readAccount populateCache
  cases h : alookup s.cache addr <;> simp [h]

theorem requireBase_val (s : State) (addr : AddressWithSpace) :
    (requireBase s addr).1 = popAccount s addr := by
  unfold requireBase popAccount popEntry
  cases h : alookup s.cache addr with
  | none =>
    simp [h, alookup_aset_self, AccountEntry.newClean]
  | some e => simp [h]

theorem requireBase_state (s : State) (addr : AddressWithSpace) :
    (requireBase s addr).2 =
      { s with
        cache :=
          aset addr ⟨popAccount s addr, AccountState.Dirty⟩
            (populateCache s addr)
        checkpoints :=
          recordUndo s.checkpoints addr
            (some (AccountEntry.cloneDirty (popEntry s addr))) } := by
  unfold requireBase populateCache recordUndo popAccount popEntry
    AccountEntry.cloneDirty
  cases h : alookup s.cache addr with
  | none =>
    simp [h, alookup_aset_self, AccountEntry.newClean]
  | some e => simp [h]

theorem requireOrSetApplyRet_state {α : Type} (s : State)
    (addr : AddressWithSpace) (dflt : Option OverlayAccount)
    (f : OverlayAccount → OverlayAccount × α) (r0 : α) :
    (requireOrSetApplyRet s addr dflt f r0).2.2 =
      { s with
        cache :=
          aset addr
            ⟨requireResult (popAccount s addr) dflt (fun a => (f a).1),
              AccountState.Dirty⟩
            (populateCache s addr)
        checkpoints :=
          recordUndo s.checkpoints addr
            (some (AccountEntry.cloneDirty (popEntry s addr))) } := by
  unfold requireOrSetApplyRet
  rw [show (requireBase s addr) = ((requireBase s addr).1, (requireBase s addr).2) from rfl]
  rw [requireBase_val, requireBase_state]
  cases hacc : popAccount s addr with
  | some a => simp [requireResult, hacc, aset_aset]
  | none =>
    cases dflt with
    | some d => simp [requireResult, aset_aset]
    | none => simp [requireResult, aset_aset]

theorem alookup_populateCache_self (s : State) (addr : AddressWithSpace) :
    alookup (populateCache s addr) addr = some (popEntry s addr) := by
  unfold populateCache popEntry
  cases h : alookup s.cache addr with
  | none => simp [h, alookup_aset_self]
  | some e => simp [h]

theorem alookup_populateCache_ne (s : State) (addr a : AddressWithSpace)
    (h : a ≠ addr) :
    alookup (populateCache s addr) a = alookup s.cache a := by
  unfold populateCache
  cases hc : alookup s.cache addr with
  | none => simp [hc, alookup_aset_ne _ _ _ _ h]
  | some e => simp [hc]

theorem alookup_eq_none_iff {α β : Type} [DecidableEq α]
    (l : List (α × β)) (a : α) :
    alookup l a = none ↔ a ∉ l.map Prod.fst := by
  induction l with
  | nil => simp [alookup]
  | cons hd tl ih =>
    obtain ⟨k1, v1⟩ := hd
    by_cases h : a = k1
    · subst h; simp [alookup]
    · simp [alookup, h, ih]

theorem frameKeysNodup_aorInsert (k : AddressWithSpace)
    (v : Option AccountEntry) (f : Frame) (h : frameKeysNodup f) :
    frameKeysNodup (aorInsert k v f) := by
  unfold aorInsert
  cases hl : alookup f k with
  | some w => simp [hl, h]
  | none =>
    simp only [hl, Option.isSome_none, Bool.false_eq_true, if_false]
    unfold frameKeysNodup at h ⊢
    simp only [List.map_cons]
    exact List.Nodup.cons ((alookup_eq_none_iff f k).1 hl) h

/-! ## The discard merge -/

theorem alookup_foldl_aorInsert (top : Frame) (prev : Frame)
    (a : AddressWithSpace) :
    alookup
        (top.foldl (fun acc kv => aorInsert kv.1 kv.2 acc) prev) a =
      oor (alookup prev a) (alookup top a) := by
  induction top generalizing prev with
  | nil => cases h : alookup prev a <;> simp [alookup, oor, h]
  | cons hd tl ih =>
    obtain ⟨k, v⟩ := hd
    simp only [List.foldl_cons]
    rw [ih]
    by_cases ha : a = k
    · subst ha
      rw [alookup_aorInsert_self]
      cases h : alookup prev a <;> simp [alookup, oor, h]
    · rw [alookup_aorInsert_ne _ _ _ _ ha]
      simp [alookup, ha]

theorem alookup_mergeInto (prev top : Frame) (a : AddressWithSpace) :
    alookup (mergeInto prev top) a =
      oor (alookup prev a) (alookup top a) := by
  unfold mergeInto
  cases hp : prev with
  | nil => simp [alookup, oor]
  | cons hd tl =>
    simp only [List.isEmpty_cons, Bool.false_eq_true, if_false]
    rw [← hp, alookup_foldl_aorInsert]

theorem frameKeysNodup_mergeInto (prev top : Frame)
    (hp : frameKeysNodup prev) (ht : frameKeysNodup top) :
    frameKeysNodup (mergeInto prev top) := by
  unfold mergeInto
  cases hc : prev with
  | nil => simpa [hc] using ht
  | cons hd tl =>
    simp only [List.isEmpty_cons, Bool.false_eq_true, if_false]
    rw [← hc]
    clear hc
    induction top generalizing prev with
    | nil => simpa
    | cons hd2 tl2 ih =>
      simp only [List.foldl_cons]
      exact ih _ (frameKeysNodup_aorInsert _ _ _ hp) ht.of_cons

/-! ## The revert replay -/

theorem alookup_applyUndo_ne (k : AddressWithSpace)
    (u : Option AccountEntry) (c : Cache) (a : AddressWithSpace)
    (h : a ≠ k) : alookup (applyUndo k u c) a = alookup c a := by
  unfold applyUndo
  cases u with
  | some v => exact alookup_aset_ne _ _ _ _ h
  | none =>
    cases hc : alookup c k with
    | none => rfl
    | some e =>
      by_cases hd : e.state = AccountState.Dirty
      · simp [hd, alookup_aremove, h]
      · simp [hd]

theorem alookup_applyUndo_self (k : AddressWithSpace)
    (u : Option AccountEntry) (c : Cache) :
    alookup (applyUndo k u c) k = undoResultAt u (alookup c k) := by
  unfold applyUndo undoResultAt
  cases u with
  | some v => simp [alookup_aset_self]
  | none =>
    cases hc : alookup c k with
    | none => simp [hc]
    | some e =>
      by_cases hd : e.state = AccountState.Dirty
      · simp [hd, alookup_aremove]
      · simp [hc, hd]

theorem alookup_revertApply_notin (frame : Frame) (c : Cache)
    (a : AddressWithSpace) (h : a ∉ frame.map Prod.fst) :
    alookup (revertApply frame c) a = alookup c a := by
  induction frame generalizing c with
  | nil => rfl
  | cons hd tl ih =>
    obtain ⟨k, u⟩ := hd
    simp only [List.map_cons, List.mem_cons] at h
    push_neg at h
    unfold revertApply
    simp only [List.foldl_cons]
    rw [show (List.foldl (fun c kv => applyUndo kv.1 kv.2 c)
        (applyUndo k u c) tl) = revertApply tl (applyUndo k u c) from rfl]
    rw [ih _ h.2, alookup_applyUndo_ne _ _ _ _ h.1]

theorem alookup_revertApply (frame : Frame) (hnd : frameKeysNodup frame)
    (c : Cache) (a : AddressWithSpace) :
    alookup (revertApply frame c) a =
      match alookup frame a with
      | some u => undoResultAt u (alookup c a)
      | none => alookup c a := by
  induction frame generalizing c with
  | nil => rfl
  | cons hd tl ih =>
    obtain ⟨k, u⟩ := hd
    unfold frameKeysNodup at hnd
    simp only [List.map_cons, List.nodup_cons] at hnd
    unfold revertApply
    simp only [List.foldl_cons]
    rw [show (List.foldl (fun c kv => applyUndo kv.1 kv.2 c)
        (applyUndo k u c) tl) = revertApply tl (applyUndo k u c) from rfl]
    by_cases ha : a = k
    · subst ha
      rw [alookup_revertApply_notin _ _ _ hnd.1,
        alookup_applyUndo_self]
      simp [alookup]
    · rw [ih hnd.2 (applyUndo k u c), alookup_applyUndo_ne _ _ _ _ ha]
      simp [alookup, ha]

/-! ## Preservation of the checkpoint-scope invariant -/

theorem alookup_aset {α β : Type} [DecidableEq α]
    (k : α) (v : β) (l : List (α × β)) (a : α) :
    alookup (aset k v l) a = if a = k then some v else alookup l a := by
  by_cases h : a = k
  · subst h; simp [alookup_aset_self]
  · simp [alookup_aset_ne _ _ _ _ h, h]

theorem obsOf_some (db : StateDb) (cache : Cache) (a : AddressWithSpace)
    (e : AccountEntry) (h : alookup cache a = some e) :
    obsOf db cache a = e.account := by
  unfold obsOf; rw [h]

theorem obsOf_none (db : StateDb) (cache : Cache) (a : AddressWithSpace)
    (h : alookup cache a = none) : obsOf db cache a = dbLoad db a := by
  unfold obsOf; rw [h]

theorem popAccount_eq_obs (s0 s : State) (addr : AddressWithSpace)
    (hdb : s.db = s0.db)
    (h : alookup s.cache addr = alookup s0.cache addr ∨
      (alookup s0.cache addr = none ∧
        alookup s.cache addr =
          some (AccountEntry.newClean (dbLoad s0.db addr)))) :
    popAccount s addr = obsOf s0.db s0.cache addr := by
  unfold popAccount popEntry
  rcases h with h | ⟨h0, hc⟩
  · cases h0 : alookup s0.cache addr with
    | some c0 =>
      rw [h, h0]
      rw [obsOf_some _ _ _ _ h0]
      rfl
    | none =>
      rw [h, h0, obsOf_none _ _ _ h0, hdb]
      rfl
  · rw [hc, obsOf_none _ _ _ h0]
    rfl

theorem scopeInv_init (db : StateDb) (cache0 : Cache) :
    ScopeInv db cache0 [] cache0 := by
  intro a
  simp [alookup]

theorem cacheEvolves_refl (c : Cache) : CacheEvolves c c :=
  fun _ e h => ⟨e, h, fun hd => hd⟩

theorem cacheEvolves_trans {c1 c2 c3 : Cache} (h12 : CacheEvolves c1 c2)
    (h23 : CacheEvolves c2 c3) : CacheEvolves c1 c3 := by
  intro a e h1
  obtain ⟨e2, h2, hd2⟩ := h12 a e h1
  obtain ⟨e3, h3, hd3⟩ := h23 a e2 h2
  exact ⟨e3, h3, fun hd => hd3 (hd2 hd)⟩

theorem scopeFull_checkpoint (s : State) : ScopeFull s (checkpointOp s).2 := by
  refine ⟨rfl, rfl, [], rfl, ?_, scopeInv_init s.db s.cache,
    cacheEvolves_refl s.cache⟩
  simp [frameKeysNodup]

theorem applyMutation_require_eq (s : State) (addr : AddressWithSpace)
    (dflt : Option OverlayAccount) (f : OverlayAccount → OverlayAccount) :
    applyMutation s (Mutation.require addr dflt f) =
      { s with
        cache :=
          aset addr
            ⟨requireResult (popAccount s addr) dflt f, AccountState.Dirty⟩
            (populateCache s addr)
        checkpoints :=
          recordUndo s.checkpoints addr
            (some (AccountEntry.cloneDirty (popEntry s addr))) } := by
  show (requireOrSetApplyRet s addr dflt (fun a => (f a, ())) ()).2.2 = _
  rw [requireOrSetApplyRet_state]

theorem scopeFull_require (s0 s : State) (addr : AddressWithSpace)
    (dflt : Option OverlayAccount) (f : OverlayAccount → OverlayAccount)
    (h : ScopeFull s0 s) :
    ScopeFull s0 (applyMutation s (Mutation.require addr dflt f)) := by
  obtain ⟨hdb, hwsc, frame, hck, hnd, hinv, hev⟩ := h
  rw [applyMutation_require_eq]
  refine ⟨hdb, hwsc,
    aorInsert addr (some (AccountEntry.cloneDirty (popEntry s addr))) frame,
    by rw [hck]; rfl, frameKeysNodup_aorInsert _ _ _ hnd, ?_, ?_⟩
  · intro a
    by_cases ha : a = addr
    · subst ha
      rw [alookup_aorInsert_self]
      cases hfr : alookup frame a with
      | some u0 =>
        have hinva := hinv a
        rw [hfr] at hinva
        cases u0 with
        | some e =>
          simp only [oor]
          refine ⟨hinva.1, ⟨_, alookup_aset_self _ _ _, rfl⟩⟩
        | none =>
          simp only [oor]
          refine ⟨hinva.1, ?_⟩
          intro c hc
          rw [alookup_aset_self] at hc
          exact Or.inl (by injection hc with h2; rw [← h2])
      | none =>
        have hinva := hinv a
        rw [hfr] at hinva
        simp only [oor]
        constructor
        · show (AccountEntry.cloneDirty (popEntry s a)).account = _
          show (popEntry s a).account = _
          exact popAccount_eq_obs s0 s a hdb hinva
        · exact ⟨_, alookup_aset_self _ _ _, rfl⟩
    · have hfa :
          alookup
            (aorInsert addr
              (some (AccountEntry.cloneDirty (popEntry s addr))) frame) a =
            alookup frame a :=
        alookup_aorInsert_ne _ _ _ _ ha
      have hca :
          alookup
            (aset addr
              ⟨requireResult (popAccount s addr) dflt f,
                AccountState.Dirty⟩ (populateCache s addr)) a =
            alookup s.cache a := by
        rw [alookup_aset_ne _ _ _ _ ha, alookup_populateCache_ne _ _ _ ha]
      show (match
          alookup
            (aorInsert addr
              (some (AccountEntry.cloneDirty (popEntry s addr))) frame) a
          with
        | some (some e) => _ | some none => _ | none => _ : Prop)
      rw [hfa, hca]
      exact hinv a
  · intro a e hae
    by_cases ha : a = addr
    · subst ha
      exact ⟨_, alookup_aset_self _ _ _, fun _ => rfl⟩
    · obtain ⟨e2, h2, hd2⟩ := hev a e hae
      refine ⟨e2, ?_, hd2⟩
      rw [alookup_aset_ne _ _ _ _ ha, alookup_populateCache_ne _ _ _ ha]
      exact h2

theorem scopeFull_updateCache (s0 s : State) (addr : AddressWithSpace)
    (acc : Option OverlayAccount) (h : ScopeFull s0 s) :
    ScopeFull s0 (applyMutation s (Mutation.updateCache addr acc)) := by
  obtain ⟨hdb, hwsc, frame, hck, hnd, hinv, hev⟩ := h
  show ScopeFull s0 (updateCacheOp s addr acc)
  unfold updateCacheOp
  rw [hck]
  refine ⟨hdb, hwsc, aorInsert addr (alookup s.cache addr) frame, rfl,
    frameKeysNodup_aorInsert _ _ _ hnd, ?_, ?_⟩
  · intro a
    by_cases ha : a = addr
    · subst ha
      rw [alookup_aorInsert_self]
      cases hfr : alookup frame a with
      | some u0 =>
        have hinva := hinv a
        rw [hfr] at hinva
        cases u0 with
        | some e =>
          simp only [oor]
          exact ⟨hinva.1, ⟨_, alookup_aset_self _ _ _, rfl⟩⟩
        | none =>
          simp only [oor]
          refine ⟨hinva.1, ?_⟩
          intro c hc
          rw [alookup_aset_self] at hc
          exact Or.inl (by injection hc with h2; rw [← h2]; rfl)
      | none =>
        have hinva := hinv a
        rw [hfr] at hinva
        simp only [oor]
        cases hsc : alookup s.cache a with
        | some e =>
          constructor
          · rcases hinva with h1 | ⟨h0, hc⟩
            · rw [hsc] at h1
              rw [obsOf_some s0.db s0.cache a e h1.symm]
            · rw [hsc] at hc
              injection hc with h2
              rw [h2, obsOf_none _ _ _ h0]
              rfl
          · exact ⟨_, alookup_aset_self _ _ _, rfl⟩
        | none =>
          constructor
          · rcases hinva with h1 | ⟨h0, hc⟩
            · rw [hsc] at h1
              rw [obsOf_none _ _ _ h1.symm]
            · rw [hsc] at hc
              exact absurd hc (by simp)
          · intro c hc
            rw [alookup_aset_self] at hc
            exact Or.inl (by injection hc with h2; rw [← h2]; rfl)
    · have hfa :
          alookup (aorInsert addr (alookup s.cache addr) frame) a =
            alookup frame a := alookup_aorInsert_ne _ _ _ _ ha
      have hca :
          alookup (aset addr (AccountEntry.newDirty acc) s.cache) a =
            alookup s.cache a := alookup_aset_ne _ _ _ _ ha
      show (match
          alookup (aorInsert addr (alookup s.cache addr) frame) a with
        | some (some e) => _ | some none => _ | none => _ : Prop)
      rw [hfa, hca]
      exact hinv a
  · intro a e hae
    by_cases ha : a = addr
    · subst ha
      exact ⟨_, alookup_aset_self _ _ _, fun _ => rfl⟩
    · obtain ⟨e2, h2, hd2⟩ := hev a e hae
      exact ⟨e2, by rw [alookup_aset_ne _ _ _ _ ha]; exact h2, hd2⟩

theorem scopeFull_readTouch (s0 s : State) (addr : AddressWithSpace)
    (h : ScopeFull s0 s) :
    ScopeFull s0 (applyMutation s (Mutation.readTouch addr)) := by
  obtain ⟨hdb, hwsc, frame, hck, hnd, hinv, hev⟩ := h
  show ScopeFull s0 (readAccount s addr).2
  rw [readAccount_state]
  cases hsc : alookup s.cache addr with
  | some e =>
    have hpc : populateCache s addr = s.cache := by
      unfold populateCache
      simp [hsc]
    rw [hpc]
    exact ⟨hdb, hwsc, frame, hck, hnd, hinv, hev⟩
  | none =>
    have hpc : populateCache s addr =
        aset addr (AccountEntry.newClean (dbLoad s0.db addr)) s.cache := by
      unfold populateCache
      rw [hdb]
      simp [hsc]
    rw [hpc]
    refine ⟨hdb, hwsc, frame, hck, hnd, ?_, ?_⟩
    · intro a
      by_cases ha : a = addr
      · subst ha
        cases hfr : alookup frame a with
        | some u0 =>
          have hinva := hinv a
          rw [hfr] at hinva
          cases u0 with
          | some e =>
            obtain ⟨c, hc, _⟩ := hinva.2
            rw [hsc] at hc
            exact absurd hc (by simp)
          | none =>
            refine ⟨hinva.1, ?_⟩
            intro c hc
            rw [alookup_aset_self] at hc
            injection hc with h2
            right
            rw [← h2, hinva.1]
            rfl
        | none =>
          have hinva := hinv a
          rw [hfr] at hinva
          rcases hinva with h1 | ⟨h0, hc⟩
          · rw [hsc] at h1
            exact Or.inr ⟨h1.symm, alookup_aset_self _ _ _⟩
          · rw [hsc] at hc
            exact absurd hc (by simp)
      · have hca :
            alookup
              (aset addr (AccountEntry.newClean (dbLoad s0.db addr))
                s.cache) a = alookup s.cache a :=
          alookup_aset_ne _ _ _ _ ha
        show (match alookup frame a with
          | some (some e) => _ | some none => _ | none => _ : Prop)
        rw [hca]
        exact hinv a
    · intro a e hae
      obtain ⟨e2, h2, hd2⟩ := hev a e hae
      by_cases ha : a = addr
      · subst ha
        rw [hsc] at h2
        exact absurd h2 (by simp)
      · exact ⟨e2, by rw [alookup_aset_ne _ _ _ _ ha]; exact h2, hd2⟩

theorem scopeFull_stats (s0 s : State)
    (f : WorldStatistics → WorldStatistics) (h : ScopeFull s0 s) :
    ScopeFull s0 (applyMutation s (Mutation.stats f)) := by
  obtain ⟨hdb, hwsc, frame, hck, hnd, hinv, hev⟩ := h
  exact ⟨hdb, hwsc, frame, hck, hnd, hinv, hev⟩

theorem scopeFull_applyMutation (s0 s : State) (m : Mutation)
    (h : ScopeFull s0 s) : ScopeFull s0 (applyMutation s m) := by
  cases m with
  | require addr dflt f => exact scopeFull_require s0 s addr dflt f h
  | updateCache addr acc => exact scopeFull_updateCache s0 s addr acc h
  | readTouch addr => exact scopeFull_readTouch s0 s addr h
  | stats f => exact scopeFull_stats s0 s f h

theorem scopeFull_applyMutations (s0 : State) (ms : List Mutation)
    (s : State) (h : ScopeFull s0 s) :
    ScopeFull s0 (applyMutations s ms) := by
  induction ms generalizing s with
  | nil => exact h
  | cons m rest ih =>
    exact ih (applyMutation s m) (scopeFull_applyMutation s0 s m h)

theorem obs_of_none_branch (db : StateDb) (cache0 cache : Cache)
    (a : AddressWithSpace)
    (h : alookup cache a = alookup cache0 a ∨
      (alookup cache0 a = none ∧
        alookup cache a = some (AccountEntry.newClean (dbLoad db a)))) :
    obsOf db cache a = obsOf db cache0 a := by
  rcases h with h | ⟨h0, hc⟩
  · unfold obsOf
    rw [h]
  · rw [obsOf_some db cache a _ hc, obsOf_none db cache0 a h0]
    rfl

/-- Reverting an open scope restores every observable account value and
the whole statistics aggregate and both stacks. -/
theorem revert_of_scopeFull (s0 s : State) (h : ScopeFull s0 s) :
    ∃ s1, revertToCheckpoint s = some s1 ∧
      s1.db = s0.db ∧
      s1.worldStatistics = s0.worldStatistics ∧
      s1.worldStatisticsCheckpoints = s0.worldStatisticsCheckpoints ∧
      s1.checkpoints = s0.checkpoints ∧
      s1.accountsToNotify = s.accountsToNotify ∧
      ∀ a, s1.obs a = obsOf s0.db s0.cache a := by
  obtain ⟨hdb, hwsc, frame, hck, hnd, hinv, _⟩ := h
  have hrev : revertToCheckpoint s =
      some { s with
             checkpoints := s0.checkpoints
             worldStatisticsCheckpoints := s0.worldStatisticsCheckpoints
             worldStatistics := s0.worldStatistics
             cache := revertApply frame s.cache } := by
    unfold revertToCheckpoint
    rw [hck, hwsc]
  refine ⟨_, hrev, hdb, rfl, rfl, rfl, rfl, ?_⟩
  intro a
  · show obsOf s.db (revertApply frame s.cache) a = _
    rw [hdb]
    have hra := alookup_revertApply frame hnd s.cache a
    cases hfr : alookup frame a with
    | none =>
      rw [hfr] at hra
      have hinva := hinv a
      rw [hfr] at hinva
      unfold obsOf
      rw [hra]
      exact obs_of_none_branch s0.db s0.cache s.cache a hinva
    | some u =>
      rw [hfr] at hra
      have hinva := hinv a
      rw [hfr] at hinva
      cases u with
      | some e =>
        have hra2 : alookup (revertApply frame s.cache) a = some e := hra
        rw [obsOf_some _ _ _ _ hra2]
        exact hinva.1
      | none =>
        have hra2 : alookup (revertApply frame s.cache) a =
            undoResultAt none (alookup s.cache a) := hra
        cases hsc : alookup s.cache a with
        | none =>
          rw [hsc] at hra2
          have hra3 : alookup (revertApply frame s.cache) a = none := hra2
          rw [obsOf_none _ _ _ hra3]
          exact hinva.1
        | some c =>
          rw [hsc] at hra2
          by_cases hdirty : c.state = AccountState.Dirty
          · have hra3 : alookup (revertApply frame s.cache) a = none := by
              rw [hra2]
              unfold undoResultAt
              simp [hdirty]
            rw [obsOf_none _ _ _ hra3]
            exact hinva.1
          · have hra3 : alookup (revertApply frame s.cache) a = some c := by
              rw [hra2]
              unfold undoResultAt
              simp [hdirty]
            rcases hinva.2 c hsc with hd | hacc
            · exact absurd hd hdirty
            · rw [obsOf_some _ _ _ _ hra3]
              exact hacc

/-- Composing a nested scope's invariant through the discard merge. -/
theorem scopeInv_compose (db : StateDb) (cache0 : Cache) (frame1 : Frame)
    (cacheA : Cache) (frame2 : Frame) (cacheB : Cache)
    (hinv1 : ScopeInv db cache0 frame1 cacheA)
    (hinv2 : ScopeInv db cacheA frame2 cacheB)
    (hev : CacheEvolves cacheA cacheB) :
    ScopeInv db cache0 (mergeInto frame1 frame2) cacheB := by
  intro a
  have hobsA : ∀ (hf1 : alookup frame1 a = none),
      obsOf db cacheA a = obsOf db cache0 a := by
    intro hf1
    have hinva := hinv1 a
    rw [hf1] at hinva
    exact obs_of_none_branch db cache0 cacheA a hinva
  show (match alookup (mergeInto frame1 frame2) a with
    | some (some e) => _ | some none => _ | none => _ : Prop)
  rw [alookup_mergeInto]
  cases hf1 : alookup frame1 a with
  | some u1 =>
    have hinva1 := hinv1 a
    rw [hf1] at hinva1
    cases u1 with
    | some e =>
      simp only [oor]
      obtain ⟨cA, hcA, hdA⟩ := hinva1.2
      obtain ⟨cB, hcB, hdB⟩ := hev a cA hcA
      exact ⟨hinva1.1, cB, hcB, hdB hdA⟩
    | none =>
      simp only [oor]
      refine ⟨hinva1.1, ?_⟩
      intro c hc
      cases hf2 : alookup frame2 a with
      | some u2 =>
        have hinva2 := hinv2 a
        rw [hf2] at hinva2
        cases u2 with
        | some e2 =>
          obtain ⟨c2, hc2, hd2⟩ := hinva2.2
          rw [hc] at hc2
          injection hc2 with h2
          exact Or.inl (by rw [h2]; exact hd2)
        | none =>
          rcases hinva2.2 c hc with hd | hacc
          · exact Or.inl hd
          · cases hA : alookup cacheA a with
            | none =>
              right
              rw [hacc, obsOf_none _ _ _ hA, hinva1.1]
            | some cA =>
              rcases hinva1.2 cA hA with hdA | haccA
              · obtain ⟨cB, hcB, hdB⟩ := hev a cA hA
                rw [hc] at hcB
                injection hcB with h2
                exact Or.inl (by rw [h2]; exact hdB hdA)
              · right
                rw [hacc, obsOf_some _ _ _ _ hA]
                exact haccA
      | none =>
        have hinva2 := hinv2 a
        rw [hf2] at hinva2
        rcases hinva2 with hBA | ⟨hA0, hBc⟩
        · rw [hBA] at hc
          rcases hinva1.2 c hc with hd | hacc
          · exact Or.inl hd
          · exact Or.inr hacc
        · rw [hBc] at hc
          injection hc with h2
          right
          rw [← h2, hinva1.1]
          rfl
  | none =>
    have hinva1 := hinv1 a
    rw [hf1] at hinva1
    simp only [oor]
    cases hf2 : alookup frame2 a with
    | some u2 =>
      have hinva2 := hinv2 a
      rw [hf2] at hinva2
      cases u2 with
      | some e2 =>
        refine ⟨?_, hinva2.2⟩
        rw [hinva2.1]
        exact hobsA hf1
      | none =>
        constructor
        · rw [hinva2.1]
          exact hobsA hf1
        · intro c hc
          rcases hinva2.2 c hc with hd | hacc
          · exact Or.inl hd
          · right
            rw [hacc]
            exact hobsA hf1
    | none =>
      have hinva2 := hinv2 a
      rw [hf2] at hinva2
      rcases hinva2 with hBA | ⟨hA0, hBc⟩
      · rcases hinva1 with h1 | ⟨h0, hcA⟩
        · exact Or.inl (by rw [hBA, h1])
        · exact Or.inr ⟨h0, by rw [hBA, hcA]⟩
      · rcases hinva1 with h1 | ⟨h0, hcA⟩
        · rw [hA0] at h1
          exact Or.inr ⟨h1.symm, hBc⟩
        · rw [hcA] at hA0
          exact absurd hA0 (by simp)

/-- Discarding the inner of two nested scopes leaves a single scope
whose merged frame still restores to the outer base state. -/
theorem scopeFull_discard (s0 s1 s2 : State) (h1 : ScopeFull s0 s1)
    (h2 : ScopeFull s1 s2) : ScopeFull s0 (discardCheckpoint s2) := by
  obtain ⟨hdb1, hwsc1, frame1, hck1, hnd1, hinv1, hev1⟩ := h1
  obtain ⟨hdb2, hwsc2, frame2, hck2, hnd2, hinv2, hev2⟩ := h2
  have hck : s2.checkpoints = frame2 :: frame1 :: s0.checkpoints := by
    rw [hck2, hck1]
  have hshape : discardCheckpoint s2 =
      { s2 with
        checkpoints := mergeInto frame1 frame2 :: s0.checkpoints
        worldStatisticsCheckpoints := s2.worldStatisticsCheckpoints.tail } := by
    unfold discardCheckpoint
    rw [hck]
  rw [hshape]
  refine ⟨by rw [hdb2, hdb1], ?_,
    mergeInto frame1 frame2, rfl,
    frameKeysNodup_mergeInto _ _ hnd1 hnd2, ?_, ?_⟩
  · rw [hwsc2]
    simp [hwsc1]
  · have hinv2db : ScopeInv s0.db s1.cache frame2 s2.cache := by
      rw [← show s1.db = s0.db from hdb1]
      exact hinv2
    exact scopeInv_compose s0.db s0.cache frame1 s1.cache frame2 s2.cache
      hinv1 hinv2db hev2
  · exact cacheEvolves_trans hev1 hev2

/-! # Claim theorems -/

/-- C1: for every address `X`, every starting state and every sequence
of mutation operations issued after a `checkpoint()` call,
`revert_to_checkpoint()` restores `X`'s observable overlay to its exact
value at checkpoint time and restores every world-statistics field (and
both stacks) to their values at that time. -/
theorem checkpoint_revert_restores (s : State) (ms : List Mutation)
    (X : AddressWithSpace) :
    ∃ s1,
      revertToCheckpoint (applyMutations (checkpointOp s).2 ms) = some s1 ∧
      s1.obs X = s.obs X ∧
      s1.worldStatistics = s.worldStatistics ∧
      s1.checkpoints = s.checkpoints ∧
      s1.worldStatisticsCheckpoints = s.worldStatisticsCheckpoints := by
  have h := scopeFull_applyMutations s ms _ (scopeFull_checkpoint s)
  obtain ⟨s1, hrev, hdb, hws, hwsc, hck, _, hobs⟩ :=
    revert_of_scopeFull s _ h
  refine ⟨s1, hrev, ?_, hws, hck, hwsc⟩
  rw [hobs X]
  rfl

/-- C2: `discard_checkpoint` merges the popped top frame into the
parent with first-write-wins semantics (parent entries are kept) and
pops the paired statistics snapshot without restoring it, leaving the
statistics and the cache untouched; consequently the nested sequence
`checkpoint(); mutate; checkpoint(); mutate; discard_checkpoint();
revert_to_checkpoint()` restores every address to its value before the
FIRST checkpoint (hence not to the inner mutation's value whenever that
differs) together with the statistics and both stacks. -/
theorem discard_merge_and_nested_revert (s : State) (top prev : Frame)
    (rest : List Frame) (k : AddressWithSpace) (sB : State)
    (ms1 ms2 : List Mutation) (X : AddressWithSpace)
    (hck : s.checkpoints = top :: prev :: rest) :
    ((discardCheckpoint s).checkpoints = mergeInto prev top :: rest ∧
      alookup (mergeInto prev top) k =
        oor (alookup prev k) (alookup top k) ∧
      (discardCheckpoint s).worldStatisticsCheckpoints =
        s.worldStatisticsCheckpoints.tail ∧
      (discardCheckpoint s).worldStatistics = s.worldStatistics ∧
      (discardCheckpoint s).cache = s.cache) ∧
    (∃ s1,
      revertToCheckpoint
          (discardCheckpoint
            (applyMutations
              (checkpointOp (applyMutations (checkpointOp sB).2 ms1)).2
              ms2)) = some s1 ∧
      s1.obs X = sB.obs X ∧
      s1.worldStatistics = sB.worldStatistics ∧
      s1.checkpoints = sB.checkpoints ∧
      s1.worldStatisticsCheckpoints = sB.worldStatisticsCheckpoints) := by
  constructor
  · have hshape : discardCheckpoint s =
        { s with
          checkpoints := mergeInto prev top :: rest
          worldStatisticsCheckpoints :=
            s.worldStatisticsCheckpoints.tail } := by
      unfold discardCheckpoint
      rw [hck]
    rw [hshape]
    exact ⟨rfl, alookup_mergeInto prev top k, rfl, rfl, rfl⟩
  · have hA : ScopeFull sB (applyMutations (checkpointOp sB).2 ms1) :=
      scopeFull_applyMutations sB ms1 _ (scopeFull_checkpoint sB)
    have hD :
        ScopeFull (applyMutations (checkpointOp sB).2 ms1)
          (applyMutations
            (checkpointOp (applyMutations (checkpointOp sB).2 ms1)).2
            ms2) :=
      scopeFull_applyMutations _ ms2 _ (scopeFull_checkpoint _)
    have hdisc := scopeFull_discard sB _ _ hA hD
    obtain ⟨s1, hrev, hdb, hws, hwsc, hck1, _, hobs⟩ :=
      revert_of_scopeFull sB _ hdisc
    refine ⟨s1, hrev, ?_, hws, hck1, hwsc⟩
    rw [hobs X]
    rfl

/-- C2 witness: the discard-merge part applied to a concrete state with
two open frames recording the same address. -/
theorem discard_merge_and_nested_revert_witness :
    ((discardCheckpoint exC2).checkpoints =
        mergeInto exPrevFrame exTopFrame :: [] ∧
      alookup (mergeInto exPrevFrame exTopFrame) addrA =
        oor (alookup exPrevFrame addrA) (alookup exTopFrame addrA) ∧
      (discardCheckpoint exC2).worldStatisticsCheckpoints =
        exC2.worldStatisticsCheckpoints.tail ∧
      (discardCheckpoint exC2).worldStatistics = exC2.worldStatistics ∧
      (discardCheckpoint exC2).cache = exC2.cache) ∧
    (∃ s1,
      revertToCheckpoint
          (discardCheckpoint
            (applyMutations
              (checkpointOp
                (applyMutations (checkpointOp emptyState).2 [])).2
              [])) = some s1 ∧
      s1.obs addrA = emptyState.obs addrA ∧
      s1.worldStatistics = emptyState.worldStatistics ∧
      s1.checkpoints = emptyState.checkpoints ∧
      s1.worldStatisticsCheckpoints =
        emptyState.worldStatisticsCheckpoints) :=
  discard_merge_and_nested_revert exC2 exTopFrame exPrevFrame [] addrA
    emptyState [] [] addrA rfl

/-- C5 counterexample: the claim says a recorded prior slot is restored
ONLY when the current slot is still Dirty, a cleaned slot being left
untouched; in the code the `Some(prior)` branch of
`revert_to_checkpoint` overwrites unconditionally, so a Clean slot is
replaced by the recorded prior slot. -/
theorem revert_overwrites_clean_slot_cex :
    alookup exC5.cache addrA =
      some (AccountEntry.newClean (some accA)) ∧
    (revertToCheckpoint exC5).map (fun s1 => alookup s1.cache addrA) =
      some (some (AccountEntry.newDirty (some accB))) ∧
    AccountEntry.newClean (some accA) ≠
      AccountEntry.newDirty (some accB) := by
  refine ⟨rfl, ?_, by decide⟩
  rfl

/-- C5 amended: for every address recorded in the reverted frame, a
recorded prior slot is written back unconditionally (whatever the
current slot's lifecycle state); a recorded absence removes the slot
exactly when the current slot is Dirty and leaves a non-Dirty slot
untouched; unrecorded addresses are untouched. -/
theorem revert_slot_semantics (s : State) (top : Frame)
    (rest : List Frame) (w : WorldStatistics) (ws : List WorldStatistics)
    (a : AddressWithSpace) (hck : s.checkpoints = top :: rest)
    (hwsc : s.worldStatisticsCheckpoints = w :: ws)
    (hnd : frameKeysNodup top) :
    ∃ s1, revertToCheckpoint s = some s1 ∧
      s1.worldStatistics = w ∧
      alookup s1.cache a =
        (match alookup top a with
          | some u => undoResultAt u (alookup s.cache a)
          | none => alookup s.cache a) := by
  have hrev : revertToCheckpoint s =
      some { s with
             checkpoints := rest
             worldStatisticsCheckpoints := ws
             worldStatistics := w
             cache := revertApply top s.cache } := by
    unfold revertToCheckpoint
    rw [hck, hwsc]
  exact ⟨_, hrev, rfl, alookup_revertApply top hnd s.cache a⟩

/-- C5 amended witness: the concrete Clean-slot state; the recorded
prior slot is restored even though the current slot is not Dirty. -/
theorem revert_slot_semantics_witness :
    ∃ s1, revertToCheckpoint exC5 = some s1 ∧
      s1.worldStatistics = zeroStats ∧
      alookup s1.cache addrA =
        (match alookup [(addrA, some (AccountEntry.newDirty (some accB)))]
            addrA with
          | some u => undoResultAt u (alookup exC5.cache addrA)
          | none => alookup exC5.cache addrA) :=
  revert_slot_semantics exC5
    [(addrA, some (AccountEntry.newDirty (some accB)))] [] zeroStats []
    addrA rfl rfl (by unfold frameKeysNodup; exact List.nodup_singleton _)

/-- C9 counterexample: `discard_checkpoint` and `revert_to_checkpoint`
on a state with no checkpoint frame return normally with the state
unchanged — a silent no-op, not the fail-fast abort the claim
demands. -/
theorem empty_stack_checkpoint_ops_are_noops_cex :
    emptyState.checkpoints = [] ∧
    discardCheckpoint emptyState = emptyState ∧
    revertToCheckpoint emptyState = some emptyState :=
  ⟨rfl, rfl, rfl⟩

/-- C9 amended: the structural operations (state-root computation, the
interest-rate bump, PoS interest accrual and distribution) assert that
no checkpoint scope is open and abort otherwise; but
`discard_checkpoint` / `revert_to_checkpoint` on an empty checkpoint
stack are silent no-ops rather than aborts. -/
theorem structural_asserts_and_empty_stack_noops (s : State)
    (pts : List (Nat × Nat)) (n : Nat) :
    (s.checkpoints ≠ [] → computeStateRoot s = none) ∧
    (s.worldStatisticsCheckpoints ≠ [] →
      bumpBlockNumberAccumulateInterest s = none ∧
      distributePosInterest s pts n = none ∧
      incDistributablePosInterest s n = none) ∧
    (s.checkpoints = [] →
      discardCheckpoint s = s ∧ revertToCheckpoint s = some s) := by
  refine ⟨?_, ?_, ?_⟩
  · intro h
    unfold computeStateRoot
    simp [h]
  · intro h
    refine ⟨?_, ?_, ?_⟩
    · unfold bumpBlockNumberAccumulateInterest
      simp [h]
    · unfold distributePosInterest
      simp [h]
    · unfold incDistributablePosInterest
      simp [h]
  · intro h
    constructor
    · unfold discardCheckpoint
      rw [h]
    · unfold revertToCheckpoint
      rw [h]

/-- C9 amended witness: a state with one open scope aborts every
structural operation; the empty state silently no-ops the checkpoint
pops. -/
theorem structural_asserts_and_empty_stack_noops_witness :
    (computeStateRoot exOpenScope = none ∧
      bumpBlockNumberAccumulateInterest exOpenScope = none ∧
      distributePosInterest exOpenScope [] 0 = none ∧
      incDistributablePosInterest exOpenScope 0 = none) ∧
    (discardCheckpoint emptyState = emptyState ∧
      revertToCheckpoint emptyState = some emptyState) := by
  have h1 := structural_asserts_and_empty_stack_noops exOpenScope [] 0
  have h2 := structural_asserts_and_empty_stack_noops emptyState [] 0
  have ho := h1.2.1 (by decide)
  exact ⟨⟨h1.1 (by decide), ho.1, ho.2.1, ho.2.2⟩, h2.2.2 rfl⟩

/-! ## Further shape lemmas for the read / require pipeline -/

theorem requireOrSetApplyRet_val {α : Type} (s : State)
    (addr : AddressWithSpace) (dflt : Option OverlayAccount)
    (f : OverlayAccount → OverlayAccount × α) (r0 : α) :
    (requireOrSetApplyRet s addr dflt f r0).2.1 =
      (match popAccount s addr with
        | some a => (f a).2
        | none =>
          match dflt with
          | some d => (f d).2
          | none => r0) := by
  unfold requireOrSetApplyRet
  rw [show (requireBase s addr) =
    ((requireBase s addr).1, (requireBase s addr).2) from rfl]
  rw [requireBase_val]
  cases hacc : popAccount s addr with
  | some a => simp
  | none => cases dflt <;> simp

theorem obsOf_populate (s : State) (addr a : AddressWithSpace) :
    obsOf s.db (populateCache s addr) a = obsOf s.db s.cache a := by
  by_cases ha : a = addr
  · subst ha
    rw [obsOf_some s.db _ a _ (alookup_populateCache_self s a)]
    unfold popEntry obsOf
    cases h : alookup s.cache a with
    | none => rfl
    | some e => rfl
  · unfold obsOf
    rw [alookup_populateCache_ne s addr a ha]

theorem popEntry_populate (s : State) (addr : AddressWithSpace) :
    popEntry { s with cache := populateCache s addr } addr =
      popEntry s addr := by
  unfold popEntry
  show (alookup (populateCache s addr) addr).getD _ = _
  rw [alookup_populateCache_self]
  rfl

theorem populate_populate (s : State) (addr : AddressWithSpace) :
    populateCache { s with cache := populateCache s addr } addr =
      populateCache s addr := by
  show (if (alookup (populateCache s addr) addr).isSome then _ else _) = _
  rw [alookup_populateCache_self]
  rfl

theorem storageAtRead_state (s : State) (addr : AddressWithSpace)
    (key : Nat) :
    (storageAtRead s addr key).2 =
      { s with cache := populateCache s addr } := by
  unfold storageAtRead
  rw [show (readAccount s addr) =
    ((readAccount s addr).1, (readAccount s addr).2) from rfl]
  rw [readAccount_state]

theorem storageAtRead_val (s : State) (addr : AddressWithSpace)
    (key : Nat) :
    (storageAtRead s addr key).1 =
      (match popAccount s addr with
        | some a => OverlayAccount.storageAt s.db a key
        | none => 0) := by
  unfold storageAtRead
  rw [show (readAccount s addr) =
    ((readAccount s addr).1, (readAccount s addr).2) from rfl]
  rw [readAccount_val, readAccount_state]

/-- C10: when the stored value already equals the written one,
`set_storage` performs no overlay write: the state is unchanged except
for possibly populating a Clean slot at the read address; no slot is
marked Dirty, no checkpoint undo entry is recorded, and every existing
slot survives untouched, whatever the `owner` argument. -/
theorem set_storage_same_value_noop (s : State)
    (addr : AddressWithSpace) (key v : Nat) (owner : Address)
    (a : AddressWithSpace) (e : AccountEntry)
    (h : (storageAtRead s addr key).1 = v) :
    ∃ s1, setStorageOp s addr key v owner = some s1 ∧
      s1.checkpoints = s.checkpoints ∧
      s1.worldStatistics = s.worldStatistics ∧
      s1.worldStatisticsCheckpoints = s.worldStatisticsCheckpoints ∧
      s1.db = s.db ∧
      (s1.cache = s.cache ∨
        (alookup s.cache addr = none ∧
          s1.cache =
            aset addr (AccountEntry.newClean (dbLoad s.db addr)) s.cache)) ∧
      (alookup s.cache a = some e → alookup s1.cache a = some e) ∧
      (alookup s1.cache a = some e → e.state = AccountState.Dirty →
        alookup s.cache a = some e) := by
  refine ⟨{ s with cache := populateCache s addr }, ?_, rfl, rfl, rfl, rfl,
    ?_, ?_, ?_⟩
  · unfold setStorageOp
    rw [show (storageAtRead s addr key) =
      ((storageAtRead s addr key).1, (storageAtRead s addr key).2) from rfl]
    rw [h, storageAtRead_state]
    simp
  · unfold populateCache
    cases hc : alookup s.cache addr with
    | some e0 => simp [hc]
    | none => simp [hc]
  · intro hae
    show alookup (populateCache s addr) a = some e
    by_cases ha : a = addr
    · subst ha
      rw [alookup_populateCache_self]
      unfold popEntry
      rw [hae]
      rfl
    · rw [alookup_populateCache_ne s addr a ha]
      exact hae
  · intro hae hdirty
    by_cases ha : a = addr
    · subst ha
      show alookup s.cache a = some e
      cases hc : alookup s.cache a with
      | some e0 =>
        have : alookup (populateCache s a) a = some e0 := by
          unfold populateCache
          simp [hc]
        rw [this] at hae
        exact hae
      | none =>
        have : alookup (populateCache s a) a =
            some (AccountEntry.newClean (dbLoad s.db a)) := by
          unfold populateCache
          simp [hc, alookup_aset_self]
        rw [this] at hae
        injection hae with h2
        rw [← h2] at hdirty
        exact absurd hdirty (by simp [AccountEntry.newClean])
    · rw [show (({ s with cache := populateCache s addr } : State)).cache =
        populateCache s addr from rfl,
        alookup_populateCache_ne s addr a ha] at hae
      exact hae

/-- C10 witness: writing the already-present default value `0` into an
empty state. -/
theorem set_storage_same_value_noop_witness :
    ∃ s1, setStorageOp emptyState addrA 5 0 Address.zeroAddr = some s1 ∧
      s1.checkpoints = emptyState.checkpoints ∧
      s1.worldStatistics = emptyState.worldStatistics ∧
      s1.worldStatisticsCheckpoints =
        emptyState.worldStatisticsCheckpoints ∧
      s1.db = emptyState.db ∧
      (s1.cache = emptyState.cache ∨
        (alookup emptyState.cache addrA = none ∧
          s1.cache =
            aset addrA
              (AccountEntry.newClean (dbLoad emptyState.db addrA))
              emptyState.cache)) ∧
      (alookup emptyState.cache addrA =
          some (AccountEntry.newClean none) →
        alookup s1.cache addrA = some (AccountEntry.newClean none)) ∧
      (alookup s1.cache addrA = some (AccountEntry.newClean none) →
        AccountEntry.state (AccountEntry.newClean none) =
          AccountState.Dirty →
        alookup emptyState.cache addrA =
          some (AccountEntry.newClean none)) :=
  set_storage_same_value_noop emptyState addrA 5 0 Address.zeroAddr addrA
    (AccountEntry.newClean none) (by decide)

theorem obs_eq_popAccount (s : State) (addr : AddressWithSpace) :
    s.obs addr = popAccount s addr := by
  unfold State.obs obsOf popAccount popEntry
  cases h : alookup s.cache addr <;> simp [h, AccountEntry.newClean]

theorem tokenCollateralRead_state (s : State) (addr : Address) :
    (tokenCollateralRead s addr).2 =
      { s with cache := populateCache s addr.withNativeSpace } := by
  unfold tokenCollateralRead
  rw [show (readAccount s addr.withNativeSpace) =
    ((readAccount s addr.withNativeSpace).1,
      (readAccount s addr.withNativeSpace).2) from rfl]
  rw [readAccount_state]

theorem tokenCollateralRead_val (s : State) (addr : Address) :
    (tokenCollateralRead s addr).1 =
      (match popAccount s addr.withNativeSpace with
        | some a => a.collateralForStorage
        | none => 0) := by
  unfold tokenCollateralRead
  rw [show (readAccount s addr.withNativeSpace) =
    ((readAccount s addr.withNativeSpace).1,
      (readAccount s addr.withNativeSpace).2) from rfl]
  rw [readAccount_val]
  cases h : popAccount s addr.withNativeSpace <;> simp

theorem subCollateral_accounting (a : OverlayAccount) (r : Nat)
    (hr : r ≤ a.collateralForStorage) :
    (OverlayAccount.subCollateral a r).1.collateralForStorage +
        (OverlayAccount.subCollateral a r).1.usedStoragePoints + r =
      a.collateralForStorage + a.usedStoragePoints ∧
    (OverlayAccount.subCollateral a r).1.balance +
        (OverlayAccount.subCollateral a r).1.sponsorInfo.sponsorBalanceForCollateral +
        (OverlayAccount.subCollateral a r).1.unusedStoragePoints =
      a.balance + a.sponsorInfo.sponsorBalanceForCollateral +
        a.unusedStoragePoints + r := by
  unfold OverlayAccount.subCollateral OverlayAccount.usedStoragePoints
    OverlayAccount.unusedStoragePoints
  cases hsp : a.sponsorInfo.storagePoints with
  | none =>
    cases hck : a.address.address.contractKind <;>
      simp [hsp, hck] <;> omega
  | some pts =>
    cases hck : a.address.address.contractKind <;>
      simp [hsp, hck] <;> omega

theorem requireOrNewApplyRet_val {α : Type} (s : State)
    (addr : AddressWithSpace) (f : OverlayAccount → OverlayAccount × α)
    (r0 : α) :
    (requireOrNewApplyRet s addr f r0).1 =
      (match popAccount s addr with
        | some a => (f a).2
        | none => (f (OverlayAccount.newBasic addr 0)).2) := by
  show (requireOrSetApplyRet s addr
    (some (OverlayAccount.newBasic addr 0)) f r0).2.1 = _
  rw [requireOrSetApplyRet_val]

theorem requireOrNewApplyRet_state {α : Type} (s : State)
    (addr : AddressWithSpace) (f : OverlayAccount → OverlayAccount × α)
    (r0 : α) :
    (requireOrNewApplyRet s addr f r0).2 =
      { s with
        cache :=
          aset addr
            ⟨requireResult (popAccount s addr)
              (some (OverlayAccount.newBasic addr 0)) (fun a => (f a).1),
              AccountState.Dirty⟩
            (populateCache s addr)
        checkpoints :=
          recordUndo s.checkpoints addr
            (some (AccountEntry.cloneDirty (popEntry s addr))) } := by
  show (requireOrSetApplyRet s addr
    (some (OverlayAccount.newBasic addr 0)) f r0).2.2 = _
  rw [requireOrSetApplyRet_state]

theorem subCollateralForStorage_eq (s : State) (addr : Address)
    (by_ : Nat) :
    subCollateralForStorage s addr by_ =
      (let c := (tokenCollateralRead s addr).1
       let s1 := (tokenCollateralRead s addr).2
       let refundable := if by_ > c then c else by_
       let burnt := by_ - refundable
       let pr :=
         if refundable ≠ 0 then
           requireOrNewApplyRet s1 addr.withNativeSpace
             (fun a => OverlayAccount.subCollateral a refundable) 0
         else (0, s1)
       (pr.1,
         { pr.2 with
           worldStatistics :=
             { pr.2.worldStatistics with
               totalStorageTokens :=
                 pr.2.worldStatistics.totalStorageTokens - (by_ - pr.1)
               usedStoragePoints :=
                 pr.2.worldStatistics.usedStoragePoints - pr.1
               totalIssuedTokens :=
                 pr.2.worldStatistics.totalIssuedTokens - burnt } })) := rfl

theorem popAccount_populate (s : State) (addr : AddressWithSpace) :
    popAccount { s with cache := populateCache s addr } addr =
      popAccount s addr :=
  congrArg AccountEntry.account (popEntry_populate s addr)

theorem heldCollateralOf_congr (s t : State) (addr : Address)
    (hdb : t.db = s.db) (hc : t.cache = s.cache) :
    heldCollateralOf t addr = heldCollateralOf s addr := by
  unfold heldCollateralOf State.obs obsOf
  rw [hdb, hc]

theorem refundPocketOf_congr (s t : State) (addr : Address)
    (hdb : t.db = s.db) (hc : t.cache = s.cache) :
    refundPocketOf t addr = refundPocketOf s addr := by
  unfold refundPocketOf State.obs obsOf
  rw [hdb, hc]

theorem heldCollateralOf_populate (s : State) (addr : Address) :
    heldCollateralOf { s with cache := populateCache s addr.withNativeSpace }
      addr = heldCollateralOf s addr := by
  unfold heldCollateralOf
  rw [show ({ s with cache := populateCache s addr.withNativeSpace } :
      State).obs addr.withNativeSpace =
    obsOf s.db (populateCache s addr.withNativeSpace) addr.withNativeSpace
      from rfl]
  rw [obsOf_populate]
  rfl

theorem refundPocketOf_populate (s : State) (addr : Address) :
    refundPocketOf { s with cache := populateCache s addr.withNativeSpace }
      addr = refundPocketOf s addr := by
  unfold refundPocketOf
  rw [show ({ s with cache := populateCache s addr.withNativeSpace } :
      State).obs addr.withNativeSpace =
    obsOf s.db (populateCache s addr.withNativeSpace) addr.withNativeSpace
      from rfl]
  rw [obsOf_populate]
  rfl

/-- C4: for every address and decrease `by`, `sub_collateral_for_storage`
refunds to the account exactly `min by c` where `c` is the held token
collateral (the held collateral drops and the refund pockets — balance,
collateral sponsor balance, unused storage points — rise by that
amount), and the excess `by - c` is subtracted from
`total_issued_tokens` as a burn rather than refunded or rejected; when
`by ≤ c` nothing is burned. -/
theorem sub_collateral_caps_refund_and_burns_excess (s : State)
    (addr : Address) (by_ : Nat)
    (hburn : by_ - min by_ ((tokenCollateralRead s addr).1) ≤
      s.worldStatistics.totalIssuedTokens) :
    (subCollateralForStorage s addr by_).2.worldStatistics.totalIssuedTokens +
        (by_ - min by_ ((tokenCollateralRead s addr).1)) =
      s.worldStatistics.totalIssuedTokens ∧
    (by_ ≤ (tokenCollateralRead s addr).1 →
      (subCollateralForStorage s addr
          by_).2.worldStatistics.totalIssuedTokens =
        s.worldStatistics.totalIssuedTokens) ∧
    heldCollateralOf (subCollateralForStorage s addr by_).2 addr +
        min by_ ((tokenCollateralRead s addr).1) =
      heldCollateralOf s addr ∧
    refundPocketOf (subCollateralForStorage s addr by_).2 addr =
      refundPocketOf s addr + min by_ ((tokenCollateralRead s addr).1) := by
  have hkey :
      (if by_ > (tokenCollateralRead s addr).1 then
        (tokenCollateralRead s addr).1
      else by_) = min by_ ((tokenCollateralRead s addr).1) := by
    by_cases h : by_ > (tokenCollateralRead s addr).1
    · simp [h, Nat.min_eq_right (Nat.le_of_lt h)]
    · simp [h, Nat.min_eq_left (Nat.le_of_not_lt h)]
  by_cases hr : min by_ ((tokenCollateralRead s addr).1) = 0
  · have hA : subCollateralForStorage s addr by_ =
        (0, { s with
              cache := populateCache s addr.withNativeSpace
              worldStatistics :=
                { s.worldStatistics with
                  totalStorageTokens :=
                    s.worldStatistics.totalStorageTokens - by_
                  usedStoragePoints := s.worldStatistics.usedStoragePoints
                  totalIssuedTokens :=
                    s.worldStatistics.totalIssuedTokens - by_ } }) := by
      rw [subCollateralForStorage_eq]
      simp only [hkey, hr, tokenCollateralRead_state]
      simp
    rw [hA]
    dsimp only
    rw [hr] at hburn ⊢
    refine ⟨by omega, ?_, ?_, ?_⟩
    · intro hle
      have hb0 : by_ = 0 := by
        have := Nat.min_eq_left hle
        omega
      simp [hb0]
    · rw [Nat.add_zero]
      exact (heldCollateralOf_congr
          { s with cache := populateCache s addr.withNativeSpace } _ addr
          rfl rfl).trans (heldCollateralOf_populate s addr)
    · rw [Nat.add_zero]
      exact (refundPocketOf_congr
          { s with cache := populateCache s addr.withNativeSpace } _ addr
          rfl rfl).trans (refundPocketOf_populate s addr)
  · have hc0 : (tokenCollateralRead s addr).1 ≠ 0 := by
      intro h0
      apply hr
      rw [h0]
      simp
    cases hpa : popAccount s addr.withNativeSpace with
    | none =>
      exfalso
      apply hc0
      rw [tokenCollateralRead_val, hpa]
    | some a =>
      have hcc : (tokenCollateralRead s addr).1 = a.collateralForStorage := by
        rw [tokenCollateralRead_val, hpa]
      have hB : subCollateralForStorage s addr by_ =
          ((OverlayAccount.subCollateral a
              (min by_ ((tokenCollateralRead s addr).1))).2,
           { s with
             cache :=
               aset addr.withNativeSpace
                 ⟨some ((OverlayAccount.subCollateral a
                     (min by_ ((tokenCollateralRead s addr).1))).1),
                   AccountState.Dirty⟩
                 (populateCache s addr.withNativeSpace)
             checkpoints :=
               recordUndo s.checkpoints addr.withNativeSpace
                 (some (AccountEntry.cloneDirty
                   (popEntry s addr.withNativeSpace)))
             worldStatistics :=
               { s.worldStatistics with
                 totalStorageTokens :=
                   s.worldStatistics.totalStorageTokens -
                     (by_ - (OverlayAccount.subCollateral a
                       (min by_ ((tokenCollateralRead s addr).1))).2)
                 usedStoragePoints :=
                   s.worldStatistics.usedStoragePoints -
                     (OverlayAccount.subCollateral a
                       (min by_ ((tokenCollateralRead s addr).1))).2
                 totalIssuedTokens :=
                   s.worldStatistics.totalIssuedTokens -
                     (by_ - min by_ ((tokenCollateralRead s addr).1)) } }) := by
        rw [subCollateralForStorage_eq]
        simp only [hkey, tokenCollateralRead_state, if_pos hr,
          requireOrNewApplyRet_val, requireOrNewApplyRet_state,
          popAccount_populate, populate_populate, popEntry_populate, hpa,
          requireResult]
      rw [hB]
      dsimp only
      have hra : min by_ ((tokenCollateralRead s addr).1) ≤
          a.collateralForStorage := by
        rw [← hcc]
        exact Nat.min_le_right _ _
      have hacct := subCollateral_accounting a
        (min by_ ((tokenCollateralRead s addr).1)) hra
      have hheldX : ∀ (t : State),
          t.cache =
            aset addr.withNativeSpace
              ⟨some ((OverlayAccount.subCollateral a
                  (min by_ ((tokenCollateralRead s addr).1))).1),
                AccountState.Dirty⟩
              (populateCache s addr.withNativeSpace) →
          heldCollateralOf t addr =
            (OverlayAccount.subCollateral a
              (min by_ ((tokenCollateralRead s addr).1))).1.collateralForStorage +
            (OverlayAccount.subCollateral a
              (min by_ ((tokenCollateralRead s addr).1))).1.usedStoragePoints := by
        intro t ht
        unfold heldCollateralOf State.obs
        rw [ht, obsOf_some _ _ _ _ (alookup_aset_self _ _ _)]
      have hpockX : ∀ (t : State),
          t.cache =
            aset addr.withNativeSpace
              ⟨some ((OverlayAccount.subCollateral a
                  (min by_ ((tokenCollateralRead s addr).1))).1),
                AccountState.Dirty⟩
              (populateCache s addr.withNativeSpace) →
          refundPocketOf t addr =
            (OverlayAccount.subCollateral a
              (min by_ ((tokenCollateralRead s addr).1))).1.balance +
            (OverlayAccount.subCollateral a
              (min by_ ((tokenCollateralRead s addr).1))).1.sponsorInfo.sponsorBalanceForCollateral +
            (OverlayAccount.subCollateral a
              (min by_ ((tokenCollateralRead s addr).1))).1.unusedStoragePoints := by
        intro t ht
        unfold refundPocketOf State.obs
        rw [ht, obsOf_some _ _ _ _ (alookup_aset_self _ _ _)]
      have hheldS : heldCollateralOf s addr =
          a.collateralForStorage + a.usedStoragePoints := by
        unfold heldCollateralOf
        rw [obs_eq_popAccount, hpa]
      have hpockS : refundPocketOf s addr =
          a.balance + a.sponsorInfo.sponsorBalanceForCollateral +
            a.unusedStoragePoints := by
        unfold refundPocketOf
        rw [obs_eq_popAccount, hpa]
      refine ⟨by omega, ?_, ?_, ?_⟩
      · intro hle
        have : min by_ ((tokenCollateralRead s addr).1) = by_ :=
          Nat.min_eq_left hle
        omega
      · rw [hheldX _ rfl, hheldS]
        omega
      · rw [hpockX _ rfl, hpockS]
        omega

/-- C4 witness: a decrease of 25 against 10 held token collateral
refunds 10 and burns 15 out of the issued supply of 100. -/
theorem sub_collateral_caps_refund_and_burns_excess_witness :
    (subCollateralForStorage exC4 addrU
          25).2.worldStatistics.totalIssuedTokens +
        (25 - min 25 ((tokenCollateralRead exC4 addrU).1)) =
      exC4.worldStatistics.totalIssuedTokens ∧
    (25 ≤ (tokenCollateralRead exC4 addrU).1 →
      (subCollateralForStorage exC4 addrU
          25).2.worldStatistics.totalIssuedTokens =
        exC4.worldStatistics.totalIssuedTokens) ∧
    heldCollateralOf (subCollateralForStorage exC4 addrU 25).2 addrU +
        min 25 ((tokenCollateralRead exC4 addrU).1) =
      heldCollateralOf exC4 addrU ∧
    refundPocketOf (subCollateralForStorage exC4 addrU 25).2 addrU =
      refundPocketOf exC4 addrU +
        min 25 ((tokenCollateralRead exC4 addrU).1) :=
  sub_collateral_caps_refund_and_burns_excess exC4 addrU 25 (by decide)

theorem settleCollateralForAddress_eq (s : State) (addr : Address)
    (sub : Substate) (spec : VmSpec) (dry : Bool) :
    settleCollateralForAddress s addr sub spec dry =
      (if settleIncrease sub addr ≠ 0 ∧ ¬dry then
        (if settleIncrease sub addr >
            (settleAvailable s addr sub spec).1 then
          some (CollateralCheckResult.notEnoughBalance
              (settleIncrease sub addr)
              (settleAvailable s addr sub spec).1,
            (settleAvailable s addr sub spec).2)
        else
          match addCollateralForStorage (settleAvailable s addr sub spec).2
              addr (settleIncrease sub addr) with
          | none => none
          | some ps => some (CollateralCheckResult.valid, ps.2))
      else some (CollateralCheckResult.valid,
        settleMidState s addr sub spec)) := by
  unfold settleCollateralForAddress settleIncrease settleAvailable
    settleMidState
  rfl

theorem requireOrSetApplyRet_ok {α : Type} (s : State)
    (addr : AddressWithSpace) (dflt : Option OverlayAccount)
    (f : OverlayAccount → OverlayAccount × α) (r0 : α) :
    (requireOrSetApplyRet s addr dflt f r0).1 =
      ((popAccount s addr).isSome || dflt.isSome) := by
  unfold requireOrSetApplyRet
  rw [show (requireBase s addr) =
    ((requireBase s addr).1, (requireBase s addr).2) from rfl]
  rw [requireBase_val]
  cases popAccount s addr <;> cases dflt <;> simp

theorem addCollateralForStorage_some (s : State) (addr : Address)
    (by_ : Nat) (acc : OverlayAccount)
    (hacc : popAccount s addr.withNativeSpace = some acc) :
    ∃ p s1, addCollateralForStorage s addr by_ = some (p, s1) := by
  unfold addCollateralForStorage
  by_cases hb : by_ ≠ 0
  · rw [if_pos hb]
    unfold requireExistsApplyRet
    rw [show (requireOrSetApplyRet s addr.withNativeSpace none
        (fun a => OverlayAccount.addCollateral a by_) default) =
      ((requireOrSetApplyRet s addr.withNativeSpace none
          (fun a => OverlayAccount.addCollateral a by_) default).1,
        (requireOrSetApplyRet s addr.withNativeSpace none
          (fun a => OverlayAccount.addCollateral a by_) default).2.1,
        (requireOrSetApplyRet s addr.withNativeSpace none
          (fun a => OverlayAccount.addCollateral a by_) default).2.2)
      from rfl]
    rw [requireOrSetApplyRet_ok, hacc]
    simp only [Option.isSome_some, Option.isSome_none, Bool.or_false,
      if_true]
    exact ⟨_, _, rfl⟩
  · rw [if_neg hb]
    exact ⟨0, s, rfl⟩

/-- C3: outside dry-run, when the computed token increase strictly
exceeds the payer's available balance (sponsor collateral balance plus
unused storage points for a contract, the owner's own balance
otherwise), settlement returns `NotEnoughBalance` with `required` the
increase and `got` the available balance, and the batch loop stops at
that address without touching the remaining ones; an increase exactly
equal to the available balance succeeds with `Valid` (given that the
charged account exists). -/
theorem settle_collateral_nsf_and_boundary (s : State) (addr : Address)
    (sub : Substate) (spec : VmSpec) (rest : List Address)
    (acc : OverlayAccount) (hinc0 : settleIncrease sub addr ≠ 0) :
    (settleIncrease sub addr > (settleAvailable s addr sub spec).1 →
      settleCollateralForAddress s addr sub spec false =
        some (CollateralCheckResult.notEnoughBalance
            (settleIncrease sub addr) (settleAvailable s addr sub spec).1,
          (settleAvailable s addr sub spec).2) ∧
      settleAllGo s (addr :: rest) sub spec false =
        some (CollateralCheckResult.notEnoughBalance
            (settleIncrease sub addr) (settleAvailable s addr sub spec).1,
          (settleAvailable s addr sub spec).2)) ∧
    (settleIncrease sub addr = (settleAvailable s addr sub spec).1 →
      (readAccount (settleAvailable s addr sub spec).2
          addr.withNativeSpace).1 = some acc →
      ∃ s5, settleCollateralForAddress s addr sub spec false =
        some (CollateralCheckResult.valid, s5)) := by
  constructor
  · intro hgt
    have hres : settleCollateralForAddress s addr sub spec false =
        some (CollateralCheckResult.notEnoughBalance
            (settleIncrease sub addr) (settleAvailable s addr sub spec).1,
          (settleAvailable s addr sub spec).2) := by
      rw [settleCollateralForAddress_eq]
      rw [if_pos ⟨hinc0, by simp⟩, if_pos hgt]
    refine ⟨hres, ?_⟩
    show (match settleCollateralForAddress s addr sub spec false with
      | none => none
      | some (CollateralCheckResult.valid, s1) =>
        settleAllGo s1 rest sub spec false
      | some (r, s1) => some (r, s1)) = _
    rw [hres]
  · intro heq hacc
    rw [settleCollateralForAddress_eq]
    rw [if_pos ⟨hinc0, by simp⟩, if_neg (by omega)]
    have hpa : popAccount (settleAvailable s addr sub spec).2
        addr.withNativeSpace = some acc := by
      rw [← readAccount_val]
      exact hacc
    obtain ⟨p, s5, hadd⟩ := addCollateralForStorage_some
      (settleAvailable s addr sub spec).2 addr (settleIncrease sub addr)
      acc hpa
    rw [hadd]
    exact ⟨s5, rfl⟩

/-- C3 witness: one storage unit charged against an account whose
balance (50 Drip) is far below one unit's price. -/
theorem settle_collateral_nsf_and_boundary_witness :
    (settleIncrease exSubstate addrU >
        (settleAvailable exC4 addrU exSubstate ⟨false⟩).1 →
      settleCollateralForAddress exC4 addrU exSubstate ⟨false⟩ false =
        some (CollateralCheckResult.notEnoughBalance
            (settleIncrease exSubstate addrU)
            (settleAvailable exC4 addrU exSubstate ⟨false⟩).1,
          (settleAvailable exC4 addrU exSubstate ⟨false⟩).2) ∧
      settleAllGo exC4 [addrU] exSubstate ⟨false⟩ false =
        some (CollateralCheckResult.notEnoughBalance
            (settleIncrease exSubstate addrU)
            (settleAvailable exC4 addrU exSubstate ⟨false⟩).1,
          (settleAvailable exC4 addrU exSubstate ⟨false⟩).2)) ∧
    (settleIncrease exSubstate addrU =
        (settleAvailable exC4 addrU exSubstate ⟨false⟩).1 →
      (readAccount (settleAvailable exC4 addrU exSubstate ⟨false⟩).2
          addrU.withNativeSpace).1 =
        some (OverlayAccount.newBasic addrA 0) →
      ∃ s5, settleCollateralForAddress exC4 addrU exSubstate ⟨false⟩
          false = some (CollateralCheckResult.valid, s5)) :=
  settle_collateral_nsf_and_boundary exC4 addrU exSubstate ⟨false⟩ []
    (OverlayAccount.newBasic addrA 0) (by decide)

/-! ## Newton iteration mathematics (C8) -/

/-- The Newton step strictly shrinks any over-approximation of the
root. -/
theorem newtonStep_lt (n x : Nat) (h : n < x * x) : newtonStep n x < x := by
  have hx : 0 < x := by
    rcases Nat.eq_zero_or_pos x with hx0 | hx0
    · subst hx0; simp at h
    · exact hx0
  have hdiv : n / x < x := (Nat.div_lt_iff_lt_mul hx).2 h
  unfold newtonStep
  omega

theorem newtonStep_ge_sqrt (n x : Nat) (hx : 0 < x) :
    Nat.sqrt n ≤ newtonStep n x := by
  have hs : 2 * Nat.sqrt n * x ≤ n + x * x := by
    have h1 : 2 * Nat.sqrt n * x ≤ Nat.sqrt n * Nat.sqrt n + x * x := by
      have := two_mul_le_add_sq (Nat.sqrt n) x
      calc 2 * Nat.sqrt n * x ≤ Nat.sqrt n ^ 2 + x ^ 2 := this
        _ = Nat.sqrt n * Nat.sqrt n + x * x := by ring
    exact h1.trans (Nat.add_le_add_right (Nat.sqrt_le n) _)
  have hdiv : 2 * Nat.sqrt n ≤ n / x + x := by
    have h2 : (2 * Nat.sqrt n * x) / x ≤ (n + x * x) / x :=
      Nat.div_le_div_right hs
    rw [Nat.mul_div_cancel _ hx] at h2
    rw [Nat.add_mul_div_right n x hx] at h2
    exact h2
  unfold newtonStep
  omega

theorem newtonStep_eq_div (n x : Nat) (hx : 0 < x) :
    newtonStep n x = (n + x * x) / (2 * x) := by
  unfold newtonStep
  rw [← Nat.add_mul_div_right n x hx, Nat.div_div_eq_div_mul,
    Nat.mul_comm x 2]

theorem newtonStep_err (n x e d : Nat) (hloop : n < x * x)
    (he : x ≤ Nat.sqrt n + e) (hd : 1 ≤ d)
    (h2 : e * e ≤ 2 * Nat.sqrt n * d) :
    newtonStep n x ≤ Nat.sqrt n + d := by
  have hsx : Nat.sqrt n < x := Nat.sqrt_lt.2 hloop
  have hx : 0 < x := lt_of_le_of_lt (Nat.zero_le _) hsx
  rw [newtonStep_eq_div n x hx]
  have hkey : n + x * x < (Nat.sqrt n + d + 1) * (2 * x) := by
    have hn : n ≤ Nat.sqrt n * Nat.sqrt n + 2 * Nat.sqrt n := by
      have := Nat.sqrt_le_add n
      omega
    set s := Nat.sqrt n with hs
    set f := x - s with hf
    have hxf : x = s + f := by omega
    have hf1 : 1 ≤ f := by omega
    have hfe : f ≤ e := by omega
    have hff : f * f ≤ 2 * s * d := le_trans (Nat.mul_le_mul hfe hfe) h2
    rw [hxf]
    have expand1 : n + (s + f) * (s + f) ≤
        s * s + 2 * s + (s * s + 2 * (s * f) + f * f) := by
      have : (s + f) * (s + f) = s * s + 2 * (s * f) + f * f := by ring
      omega
    have expand2 : (s + d + 1) * (2 * (s + f)) =
        2 * (s * s) + 2 * (s * f) + 2 * (s * d) + 2 * (d * f) +
          2 * s + 2 * f := by ring
    have hdf : 1 ≤ d * f := Nat.one_le_iff_ne_zero.2 (by positivity)
    have h2sd : f * f ≤ 2 * (s * d) := by
      calc f * f ≤ 2 * s * d := hff
        _ = 2 * (s * d) := by ring
    omega
  have := (Nat.div_lt_iff_lt_mul (by omega : 0 < 2 * x)).2 hkey
  omega

theorem newtonStep_lands (n : Nat) (hx : n < (Nat.sqrt n + 1) * (Nat.sqrt n + 1)) :
    newtonStep n (Nat.sqrt n + 1) = Nat.sqrt n := by
  have hs := newtonStep_ge_sqrt n (Nat.sqrt n + 1) (by omega)
  have hle : newtonStep n (Nat.sqrt n + 1) ≤ Nat.sqrt n := by
    rw [newtonStep_eq_div n _ (by omega)]
    have hn : n ≤ Nat.sqrt n * Nat.sqrt n + 2 * Nat.sqrt n := by
      have := Nat.sqrt_le_add n
      omega
    have hkey : n + (Nat.sqrt n + 1) * (Nat.sqrt n + 1) <
        (Nat.sqrt n + 1) * (2 * (Nat.sqrt n + 1)) := by
      set s := Nat.sqrt n
      have e1 : (s + 1) * (s + 1) = s * s + 2 * s + 1 := by ring
      have e2 : (s + 1) * (2 * (s + 1)) = 2 * (s * s) + 4 * s + 2 := by
        ring
      omega
    have := (Nat.div_lt_iff_lt_mul
      (by omega : 0 < 2 * (Nat.sqrt n + 1))).2 hkey
    omega
  omega

theorem newtonIter_eq_sqrt (n : Nat) :
    ∀ x, Nat.sqrt n ≤ x → newtonIter n x = Nat.sqrt n := by
  intro x
  induction x using Nat.strong_induction_on with
  | _ x ih =>
    intro hsx
    rw [newtonIter]
    split
    · next h =>
      have hx : 0 < x := by
        rcases Nat.eq_zero_or_pos x with h0 | h0
        · subst h0; simp at h
        · exact h0
      exact ih (newtonStep n x) (newtonStep_lt n x h)
        (newtonStep_ge_sqrt n x hx)
    · next h =>
      have hxs : x ≤ Nat.sqrt n := Nat.le_sqrt.2 (Nat.le_of_not_lt h)
      omega

/-- On a root whose square fits in U256, no loop operation overflows:
the faithful loop runs the unbounded recurrence through the same
successive roots and returns its value. -/
theorem newtonLoop_eq_some (n : Nat) :
    ∀ x, x * x < 2 ^ 256 → newtonLoop n x = some (newtonIter n x) := by
  intro x
  induction x using Nat.strong_induction_on with
  | _ x ih =>
    intro hx
    rw [newtonLoop, newtonIter]
    rw [if_neg (show ¬ 2 ^ 256 ≤ x * x by omega)]
    by_cases h : n < x * x
    · rw [dif_pos h, dif_pos h]
      have hx1 : 0 < x := by
        rcases Nat.eq_zero_or_pos x with h0 | h0
        · subst h0; simp at h
        · exact h0
      have hdiv : n / x < x := (Nat.div_lt_iff_lt_mul hx1).2 h
      have hxlt : x < 2 ^ 128 := by
        by_contra hge
        push_neg at hge
        have h2 : (2:Nat) ^ 256 ≤ x * x := by
          calc (2:Nat) ^ 256 = 2 ^ 128 * 2 ^ 128 := by rw [← pow_add]
            _ ≤ x * x := Nat.mul_le_mul hge hge
        omega
      have h129 : (2:Nat) ^ 128 + 2 ^ 128 ≤ 2 ^ 256 := by norm_num
      rw [if_neg (show ¬ 2 ^ 256 ≤ n / x + x by omega)]
      have hs := newtonStep_lt n x h
      have hssq : newtonStep n x * newtonStep n x < 2 ^ 256 :=
        lt_of_le_of_lt (Nat.mul_le_mul (Nat.le_of_lt hs) (Nat.le_of_lt hs))
          hx
      exact ih (newtonStep n x) hs hssq
    · rw [dif_neg h, dif_neg h]

theorem newtonCount_zero (n x : Nat) (h : ¬n < x * x) :
    newtonCount n x = 0 := by
  rw [newtonCount]
  simp [h]

theorem newtonCount_succ (n x : Nat) (h : n < x * x) :
    newtonCount n x = newtonCount n (newtonStep n x) + 1 := by
  rw [newtonCount]
  simp [h]

theorem newtonCount_le_one (n x : Nat) (hx : x ≤ Nat.sqrt n + 1) :
    newtonCount n x ≤ 1 := by
  by_cases h : n < x * x
  · have hxs : Nat.sqrt n < x := Nat.sqrt_lt.2 h
    have hxe : x = Nat.sqrt n + 1 := by omega
    rw [newtonCount_succ n x h, hxe]
    rw [hxe] at h
    rw [newtonStep_lands n h]
    rw [newtonCount_zero n _ (by have := Nat.sqrt_le n; omega)]
  · rw [newtonCount_zero n x h]
    omega

theorem newtonCount_step_bound (n x e d k : Nat)
    (he : x ≤ Nat.sqrt n + e) (hd : 1 ≤ d)
    (h2 : e * e ≤ 2 * Nat.sqrt n * d)
    (hrec : ∀ y, y ≤ Nat.sqrt n + d → newtonCount n y ≤ k) :
    newtonCount n x ≤ k + 1 := by
  by_cases h : n < x * x
  · rw [newtonCount_succ n x h]
    exact Nat.add_le_add_right (hrec _ (newtonStep_err n x e d h he hd h2)) 1
  · rw [newtonCount_zero n x h]
    omega

theorem div_sq_le_sq_div (a c : Nat) (hc : 0 < c) :
    (a / c) * (a / c) ≤ a * a / (c * c) := by
  rw [Nat.le_div_iff_mul_le (Nat.mul_pos hc hc)]
  calc a / c * (a / c) * (c * c) = (a / c * c) * (a / c * c) := by ring
    _ ≤ a * a := Nat.mul_le_mul (Nat.div_mul_le_self a c)
        (Nat.div_mul_le_self a c)

theorem newtonCount_le_four (n t x : Nat) (ht : 1 ≤ t)
    (ht96 : t ≤ 2 ^ 96) (hs : 2 ^ 31 * t ≤ Nat.sqrt n)
    (hx : x ≤ Nat.sqrt n + t) : newtonCount n x ≤ 4 := by
  have hlift : ∀ d : Nat, 2 ^ 32 * t * d ≤ 2 * Nat.sqrt n * d := by
    intro d
    have h1 : 2 ^ 32 * t ≤ 2 * Nat.sqrt n := by
      calc (2:Nat) ^ 32 * t = 2 * (2 ^ 31 * t) := by ring
        _ ≤ 2 * Nat.sqrt n := Nat.mul_le_mul_left 2 hs
    exact Nat.mul_le_mul_right d h1
  have hdiv1 : ∀ a c : Nat, 0 < c → a ≤ c * (a / c + 1) := by
    intro a c hc
    have := Nat.div_add_mod a c
    have := Nat.mod_lt a hc
    calc a = c * (a / c) + a % c := (Nat.div_add_mod a c).symm
      _ ≤ c * (a / c) + c := by omega
      _ = c * (a / c + 1) := by ring
  have h1 : t * t ≤ 2 * Nat.sqrt n * (t / 2 ^ 32 + 1) := by
    have ha : t ≤ 2 ^ 32 * (t / 2 ^ 32 + 1) :=
      hdiv1 t (2 ^ 32) (by positivity)
    calc t * t ≤ (2 ^ 32 * (t / 2 ^ 32 + 1)) * t :=
        Nat.mul_le_mul_right t ha
      _ = 2 ^ 32 * t * (t / 2 ^ 32 + 1) := by ring
      _ ≤ 2 * Nat.sqrt n * (t / 2 ^ 32 + 1) := hlift _
  have h2 : (t / 2 ^ 32 + 1) * (t / 2 ^ 32 + 1) ≤
      2 * Nat.sqrt n *
        ((t / 2 ^ 32 + 1) * (t / 2 ^ 32 + 1) / (2 ^ 32 * t) + 1) := by
    have hb := hdiv1 ((t / 2 ^ 32 + 1) * (t / 2 ^ 32 + 1)) (2 ^ 32 * t)
      (by positivity)
    calc (t / 2 ^ 32 + 1) * (t / 2 ^ 32 + 1) ≤
        2 ^ 32 * t *
          ((t / 2 ^ 32 + 1) * (t / 2 ^ 32 + 1) / (2 ^ 32 * t) + 1) := hb
      _ ≤ 2 * Nat.sqrt n *
          ((t / 2 ^ 32 + 1) * (t / 2 ^ 32 + 1) / (2 ^ 32 * t) + 1) :=
        hlift _
  have hd2 : (t / 2 ^ 32 + 1) * (t / 2 ^ 32 + 1) / (2 ^ 32 * t) + 1 ≤ 5 := by
    by_cases hts : t ≤ 2 ^ 32
    · have hq : t / 2 ^ 32 ≤ 1 := by
        have : t / 2 ^ 32 ≤ 2 ^ 32 / 2 ^ 32 := Nat.div_le_div_right hts
        simpa using this
      have hsm : (t / 2 ^ 32 + 1) * (t / 2 ^ 32 + 1) ≤ 4 := by
        have : t / 2 ^ 32 + 1 ≤ 2 := by omega
        calc (t / 2 ^ 32 + 1) * (t / 2 ^ 32 + 1) ≤ 2 * 2 :=
            Nat.mul_le_mul this this
          _ = 4 := rfl
      have : (t / 2 ^ 32 + 1) * (t / 2 ^ 32 + 1) / (2 ^ 32 * t) = 0 := by
        apply Nat.div_eq_of_lt
        have h32 : (4:Nat) < 2 ^ 32 := by norm_num
        calc (t / 2 ^ 32 + 1) * (t / 2 ^ 32 + 1) ≤ 4 := hsm
          _ < 2 ^ 32 := h32
          _ = 2 ^ 32 * 1 := by ring
          _ ≤ 2 ^ 32 * t := Nat.mul_le_mul_left _ ht
      omega
    · push_neg at hts
      have hq1 : 1 ≤ t / 2 ^ 32 := by
        rw [Nat.le_div_iff_mul_le (by positivity)]
        omega
      have hd1 : t / 2 ^ 32 + 1 ≤ 2 * (t / 2 ^ 32) := by omega
      have hsq : (t / 2 ^ 32 + 1) * (t / 2 ^ 32 + 1) ≤
          4 * (t * t / (2 ^ 32 * 2 ^ 32)) := by
        calc (t / 2 ^ 32 + 1) * (t / 2 ^ 32 + 1) ≤
            (2 * (t / 2 ^ 32)) * (2 * (t / 2 ^ 32)) :=
            Nat.mul_le_mul hd1 hd1
          _ = 4 * ((t / 2 ^ 32) * (t / 2 ^ 32)) := by ring
          _ ≤ 4 * (t * t / (2 ^ 32 * 2 ^ 32)) :=
            Nat.mul_le_mul_left 4 (div_sq_le_sq_div t (2 ^ 32)
              (by positivity))
      have htt : t * t / (2 ^ 32 * 2 ^ 32) ≤ 2 ^ 32 * t := by
        have h1 : t * t ≤ 2 ^ 96 * t := Nat.mul_le_mul_right t ht96
        have h2 : t * t / (2 ^ 32 * 2 ^ 32) ≤ 2 ^ 96 * t / (2 ^ 32 * 2 ^ 32) :=
          Nat.div_le_div_right h1
        have h3 : (2:Nat) ^ 96 * t / (2 ^ 32 * 2 ^ 32) = 2 ^ 32 * t := by
          have : (2:Nat) ^ 96 = (2 ^ 32 * 2 ^ 32) * 2 ^ 32 := by
            rw [← pow_add, ← pow_add]
          rw [this]
          rw [show (2:Nat) ^ 32 * 2 ^ 32 * 2 ^ 32 * t =
            (2 ^ 32 * 2 ^ 32) * (2 ^ 32 * t) by ring]
          exact Nat.mul_div_cancel_left _ (by positivity)
        omega
      have hfin : (t / 2 ^ 32 + 1) * (t / 2 ^ 32 + 1) / (2 ^ 32 * t) ≤ 4 := by
        have h4 : 4 * (t * t / (2 ^ 32 * 2 ^ 32)) ≤ 4 * (2 ^ 32 * t) :=
          Nat.mul_le_mul_left 4 htt
        have h5 : (t / 2 ^ 32 + 1) * (t / 2 ^ 32 + 1) ≤ 4 * (2 ^ 32 * t) := by
          omega
        have h6 : (t / 2 ^ 32 + 1) * (t / 2 ^ 32 + 1) / (2 ^ 32 * t) ≤
            4 * (2 ^ 32 * t) / (2 ^ 32 * t) := Nat.div_le_div_right h5
        rw [Nat.mul_div_cancel 4 (by positivity)] at h6
        exact h6
      omega
  have h3 : ((t / 2 ^ 32 + 1) * (t / 2 ^ 32 + 1) / (2 ^ 32 * t) + 1) *
      ((t / 2 ^ 32 + 1) * (t / 2 ^ 32 + 1) / (2 ^ 32 * t) + 1) ≤
      2 * Nat.sqrt n * 1 := by
    have h25 : ((t / 2 ^ 32 + 1) * (t / 2 ^ 32 + 1) / (2 ^ 32 * t) + 1) *
        ((t / 2 ^ 32 + 1) * (t / 2 ^ 32 + 1) / (2 ^ 32 * t) + 1) ≤ 25 :=
      Nat.mul_le_mul hd2 hd2
    have hbig : (25:Nat) ≤ 2 * Nat.sqrt n * 1 := by
      have h31 : (25:Nat) ≤ 2 ^ 31 := by norm_num
      have : (2:Nat) ^ 31 ≤ 2 ^ 31 * t :=
        le_mul_of_one_le_right (Nat.zero_le _) ht
      omega
    omega
  apply newtonCount_step_bound n x t (t / 2 ^ 32 + 1) 3 hx
    (Nat.le_add_left 1 _) h1
  intro y1 hy1
  apply newtonCount_step_bound n y1 (t / 2 ^ 32 + 1)
    ((t / 2 ^ 32 + 1) * (t / 2 ^ 32 + 1) / (2 ^ 32 * t) + 1) 2 hy1
    (Nat.le_add_left 1 _) h2
  intro y2 hy2
  apply newtonCount_step_bound n y2
    ((t / 2 ^ 32 + 1) * (t / 2 ^ 32 + 1) / (2 ^ 32 * t) + 1) 1 1 hy2
    (le_refl 1) h3
  intro y3 hy3
  exact newtonCount_le_one n y3 hy3

/-- `sqrt_u256` computes the integer square root on every input: the
initial most-significant-word estimate always over-approximates the
root, from where the Newton refinement converges exactly. -/
theorem sqrt_u256_eq_sqrt (n : Nat)
    (h : n < (2 ^ 32 - 1) ^ 2 * 2 ^ 192) :
    sqrt_u256 n = some (Nat.sqrt n) := by
  by_cases hb : bitsU n ≤ 64
  · show (if bitsU n ≤ 64 then some (Nat.sqrt n) else _) =
      some (Nat.sqrt n)
    rw [if_pos hb]
  · push_neg at hb
    have hn0 : n ≠ 0 := by
      intro h0
      rw [h0] at hb
      simp [bitsU] at hb
    have hbits : bitsU n = Nat.log2 n + 1 := by simp [bitsU, hn0]
    have h256 : n < 2 ^ 256 := lt_of_lt_of_le h (by norm_num)
    have hble : bitsU n ≤ 256 := by
      rw [hbits]
      have := (Nat.log2_lt hn0).2 h256
      omega
    have hnhi : n < 2 ^ bitsU n := by
      rw [hbits]
      exact Nat.lt_log2_self
    have hrest2 : (bitsU n - (64 - bitsU n % 2)) % 2 = 0 := by omega
    set rest := bitsU n - (64 - bitsU n % 2) with hrest
    set sw := n >>> rest with hswdef
    have hsw : sw = n / 2 ^ rest := Nat.shiftRight_eq_div_pow n rest
    set t := (2:Nat) ^ (rest / 2) with htdef
    have htsq : t * t = 2 ^ rest := by
      rw [htdef, ← pow_add]
      congr 1
      omega
    have hswlt : sw < 2 ^ (bitsU n - rest) := by
      rw [hsw, Nat.div_lt_iff_lt_mul (by positivity)]
      calc n < 2 ^ bitsU n := hnhi
        _ = 2 ^ (bitsU n - rest) * 2 ^ rest := by
          rw [← pow_add]
          congr 1
          omega
    have hsw64 : sw < 2 ^ 64 :=
      lt_of_lt_of_le hswlt (Nat.pow_le_pow_right (by omega) (by omega))
    have hinit : (Nat.sqrt sw + 1) * t < 2 ^ 128 := by
      rcases Nat.lt_or_ge rest 192 with hr | hr
      · have hsx : Nat.sqrt sw < 2 ^ 32 := by
          rw [Nat.sqrt_lt]
          calc sw < 2 ^ 64 := hsw64
            _ = 2 ^ 32 * 2 ^ 32 := by rw [← pow_add]
        have ht95 : t ≤ 2 ^ 95 := by
          rw [htdef]
          exact Nat.pow_le_pow_right (by omega) (by omega)
        calc (Nat.sqrt sw + 1) * t ≤ 2 ^ 32 * 2 ^ 95 :=
            Nat.mul_le_mul (by omega) ht95
          _ < 2 ^ 128 := by norm_num
      · have hr192 : rest = 192 := by omega
        have hswb : sw < (2 ^ 32 - 1) ^ 2 := by
          rcases Nat.lt_or_ge (bitsU n) 256 with hbl | hbl
          · calc sw < 2 ^ (bitsU n - rest) := hswlt
              _ ≤ 2 ^ 63 := Nat.pow_le_pow_right (by omega) (by omega)
              _ < (2 ^ 32 - 1) ^ 2 := by norm_num
          · rw [hsw, hr192, Nat.div_lt_iff_lt_mul (by positivity)]
            exact h
        have hsx : Nat.sqrt sw < 2 ^ 32 - 1 := by
          rw [Nat.sqrt_lt]
          calc sw < (2 ^ 32 - 1) ^ 2 := hswb
            _ = (2 ^ 32 - 1) * (2 ^ 32 - 1) := by ring
        have ht96 : t = 2 ^ 96 := by rw [htdef, hr192]
        have hstep : (Nat.sqrt sw + 1) * t ≤ (2 ^ 32 - 1) * 2 ^ 96 := by
          rw [ht96]
          exact Nat.mul_le_mul_right _ (by omega)
        have hfin : ((2:Nat) ^ 32 - 1) * 2 ^ 96 < 2 ^ 128 := by norm_num
        omega
    have hinitsq :
        ((Nat.sqrt sw + 1) * t) * ((Nat.sqrt sw + 1) * t) < 2 ^ 256 := by
      have h1 : (Nat.sqrt sw + 1) * t ≤ 2 ^ 128 - 1 := by omega
      calc ((Nat.sqrt sw + 1) * t) * ((Nat.sqrt sw + 1) * t) ≤
          (2 ^ 128 - 1) * (2 ^ 128 - 1) := Nat.mul_le_mul h1 h1
        _ < 2 ^ 256 := by norm_num
    have hnsw : n < (sw + 1) * 2 ^ rest := by
      rw [hsw]
      have := Nat.mod_lt n (show 0 < 2 ^ rest by positivity)
      calc n = 2 ^ rest * (n / 2 ^ rest) + n % 2 ^ rest :=
          (Nat.div_add_mod n (2 ^ rest)).symm
        _ < 2 ^ rest * (n / 2 ^ rest) + 2 ^ rest := by omega
        _ = (n / 2 ^ rest + 1) * 2 ^ rest := by ring
    have hx0 : (Nat.sqrt sw + 1) <<< (rest / 2) = (Nat.sqrt sw + 1) * t := by
      rw [Nat.shiftLeft_eq]
    have hx0lo : Nat.sqrt n ≤ (Nat.sqrt sw + 1) * t := by
      have hover : n < ((Nat.sqrt sw + 1) * t) * ((Nat.sqrt sw + 1) * t) := by
        calc n < (sw + 1) * 2 ^ rest := hnsw
          _ ≤ ((Nat.sqrt sw + 1) * (Nat.sqrt sw + 1)) * 2 ^ rest :=
            Nat.mul_le_mul_right _ (Nat.lt_succ_sqrt sw)
          _ = ((Nat.sqrt sw + 1) * t) * ((Nat.sqrt sw + 1) * t) := by
            rw [← htsq]; ring
      exact Nat.le_of_lt (Nat.sqrt_lt.2 hover)
    show (if bitsU n ≤ 64 then some (Nat.sqrt n)
      else newtonLoop n ((Nat.sqrt (n >>> rest) + 1) <<< (rest / 2))) =
      some (Nat.sqrt n)
    rw [if_neg (by omega), ← hswdef, hx0,
      newtonLoop_eq_some n _ hinitsq]
    exact congrArg some (newtonIter_eq_sqrt n _ hx0lo)

/-- On a 256-bit input whose top word is at least `(2^32 - 1)^2`, the
most-significant-word estimate is exactly `2^128`, so the squaring in
the loop's first comparison overflows U256 and the source panics. -/
theorem sqrt_u256_panics (n : Nat)
    (hge : (2 ^ 32 - 1) ^ 2 * 2 ^ 192 ≤ n) (hlt : n < 2 ^ 256) :
    sqrt_u256 n = none := by
  have hn0 : n ≠ 0 := by
    intro h0
    rw [h0] at hge
    norm_num at hge
  have hlog_lo : 255 ≤ Nat.log2 n := by
    rw [Nat.le_log2 hn0]
    calc (2:Nat) ^ 255 ≤ (2 ^ 32 - 1) ^ 2 * 2 ^ 192 := by norm_num
      _ ≤ n := hge
  have hlog_hi : Nat.log2 n < 256 := (Nat.log2_lt hn0).2 hlt
  have hbits : bitsU n = 256 := by
    simp only [bitsU, hn0, if_false, reduceIte]
    omega
  have hrest : bitsU n - (64 - bitsU n % 2) = 192 := by omega
  have hsw : n >>> (192:Nat) = n / 2 ^ 192 :=
    Nat.shiftRight_eq_div_pow n 192
  have hswlo : (2 ^ 32 - 1) * (2 ^ 32 - 1) ≤ n / 2 ^ 192 := by
    rw [Nat.le_div_iff_mul_le (by positivity)]
    calc (2 ^ 32 - 1) * (2 ^ 32 - 1) * 2 ^ 192 =
        (2 ^ 32 - 1) ^ 2 * 2 ^ 192 := by ring
      _ ≤ n := hge
  have hswhi : n / 2 ^ 192 < 2 ^ 32 * 2 ^ 32 := by
    rw [Nat.div_lt_iff_lt_mul (by positivity)]
    calc n < 2 ^ 256 := hlt
      _ = 2 ^ 32 * 2 ^ 32 * 2 ^ 192 := by norm_num
  have hsqrt : Nat.sqrt (n / 2 ^ 192) = 2 ^ 32 - 1 := by
    have h1 : 2 ^ 32 - 1 ≤ Nat.sqrt (n / 2 ^ 192) := Nat.le_sqrt.2 hswlo
    have h2 : Nat.sqrt (n / 2 ^ 192) < 2 ^ 32 := Nat.sqrt_lt.2 hswhi
    have h3 : (1:Nat) ≤ 2 ^ 32 := by norm_num
    omega
  show (if bitsU n ≤ 64 then some (Nat.sqrt n)
    else newtonLoop n
      ((Nat.sqrt (n >>> (bitsU n - (64 - bitsU n % 2))) + 1) <<<
        ((bitsU n - (64 - bitsU n % 2)) / 2))) = none
  rw [if_neg (by omega), hrest, hsw, hsqrt]
  have hinit : ((2:Nat) ^ 32 - 1 + 1) <<< (192 / 2) = 2 ^ 128 := by
    rw [Nat.shiftLeft_eq]
    norm_num
  rw [hinit, newtonLoop,
    if_pos (show (2:Nat) ^ 256 ≤ 2 ^ 128 * 2 ^ 128 by norm_num)]

/-- C8 counterexample: on the maximal U256 input the word-estimate is
`2^128`, whose squaring in the loop's first `root * root` comparison
overflows U256 — the source panics instead of terminating with the
square root. -/
theorem sqrt_u256_overflow_cex : sqrt_u256 (2 ^ 256 - 1) = none :=
  sqrt_u256_panics (2 ^ 256 - 1) (by norm_num) (by norm_num)

/-- C8 (amended): for every input below `(2^32 - 1)^2 * 2^192`,
`sqrt_u256` terminates with the integer square root (the greatest `r`
with `r * r ≤ input`, i.e. `Nat.sqrt`), its initial
most-significant-word estimate over-approximating the root, and its
Newton refinement loop executes at most 4 iterations; on larger U256
inputs the estimate is `2^128` and the loop's first `root * root`
comparison overflows U256, so the function panics instead of
returning. -/
theorem sqrt_u256_correct (n : Nat) :
    (n < (2 ^ 32 - 1) ^ 2 * 2 ^ 192 →
      sqrt_u256 n = some (Nat.sqrt n) ∧ sqrtU256Iters n ≤ 4) ∧
    ((2 ^ 32 - 1) ^ 2 * 2 ^ 192 ≤ n → n < 2 ^ 256 →
      sqrt_u256 n = none) := by
  constructor
  · intro h
    refine ⟨sqrt_u256_eq_sqrt n h, ?_⟩
    have h256 : n < 2 ^ 256 := lt_of_lt_of_le h (by norm_num)
    by_cases hb : bitsU n ≤ 64
    · show (if bitsU n ≤ 64 then 0 else _) ≤ 4
      rw [if_pos hb]
      omega
    · push_neg at hb
      have hn0 : n ≠ 0 := by
        intro h0
        rw [h0] at hb
        simp [bitsU] at hb
      have hbits : bitsU n = Nat.log2 n + 1 := by simp [bitsU, hn0]
      have hble : bitsU n ≤ 256 := by
        rw [hbits]
        have := (Nat.log2_lt hn0).2 h256
        omega
      have hnlo : 2 ^ (bitsU n - 1) ≤ n := by
        rw [hbits]
        simpa using Nat.log2_self_le hn0
      have hnhi : n < 2 ^ bitsU n := by
        rw [hbits]
        exact Nat.lt_log2_self
      have hrest2 : (bitsU n - (64 - bitsU n % 2)) % 2 = 0 := by omega
      have hrestlo : 2 ≤ bitsU n - (64 - bitsU n % 2) := by omega
      have hresthi : bitsU n - (64 - bitsU n % 2) ≤ 192 := by omega
      set rest := bitsU n - (64 - bitsU n % 2) with hrest
      set sw := n >>> rest with hswdef
      have hsw : sw = n / 2 ^ rest := Nat.shiftRight_eq_div_pow n rest
      set t := (2:Nat) ^ (rest / 2) with htdef
      have htsq : t * t = 2 ^ rest := by
        rw [htdef, ← pow_add]
        congr 1
        omega
      have hswlo : 2 ^ 62 ≤ sw := by
        rw [hsw]
        have h1 : 2 ^ (bitsU n - 1) / 2 ^ rest ≤ n / 2 ^ rest :=
          Nat.div_le_div_right hnlo
        have h2 : (2:Nat) ^ (bitsU n - 1) / 2 ^ rest =
            2 ^ (bitsU n - 1 - rest) :=
          Nat.pow_div (by omega) (by omega)
        have h3 : (2:Nat) ^ 62 ≤ 2 ^ (bitsU n - 1 - rest) :=
          Nat.pow_le_pow_right (by omega) (by omega)
        omega
      have hswmul : sw * 2 ^ rest ≤ n := by
        rw [hsw]
        exact Nat.div_mul_le_self n (2 ^ rest)
      have hnsw : n < (sw + 1) * 2 ^ rest := by
        rw [hsw]
        have := Nat.div_add_mod n (2 ^ rest)
        have := Nat.mod_lt n (show 0 < 2 ^ rest by positivity)
        calc n = 2 ^ rest * (n / 2 ^ rest) + n % 2 ^ rest :=
            (Nat.div_add_mod n (2 ^ rest)).symm
          _ < 2 ^ rest * (n / 2 ^ rest) + 2 ^ rest := by omega
          _ = (n / 2 ^ rest + 1) * 2 ^ rest := by ring
      have hsqrtswt : Nat.sqrt sw * t ≤ Nat.sqrt n := by
        apply Nat.le_sqrt.2
        calc Nat.sqrt sw * t * (Nat.sqrt sw * t) =
            (Nat.sqrt sw * Nat.sqrt sw) * (t * t) := by ring
          _ ≤ sw * (t * t) :=
            Nat.mul_le_mul_right _ (Nat.sqrt_le sw)
          _ = sw * 2 ^ rest := by rw [htsq]
          _ ≤ n := hswmul
      have hswsqlo : 2 ^ 31 ≤ Nat.sqrt sw := by
        apply Nat.le_sqrt.2
        calc (2:Nat) ^ 31 * 2 ^ 31 = 2 ^ 62 := by rw [← pow_add]
          _ ≤ sw := hswlo
      have hslo : 2 ^ 31 * t ≤ Nat.sqrt n :=
        le_trans (Nat.mul_le_mul_right t hswsqlo) hsqrtswt
      have hx0 : (Nat.sqrt sw + 1) <<< (rest / 2) =
          (Nat.sqrt sw + 1) * t := by
        rw [Nat.shiftLeft_eq]
      have hx0hi : (Nat.sqrt sw + 1) * t ≤ Nat.sqrt n + t := by
        have : (Nat.sqrt sw + 1) * t = Nat.sqrt sw * t + t := by ring
        omega
      have ht1 : 1 ≤ t := Nat.one_le_two_pow
      have ht96 : t ≤ 2 ^ 96 := Nat.pow_le_pow_right (by omega) (by omega)
      show (if bitsU n ≤ 64 then 0
        else newtonCount n ((Nat.sqrt (n >>> rest) + 1) <<< (rest / 2))) ≤ 4
      rw [if_neg (by omega), ← hswdef, hx0]
      exact newtonCount_le_four n t _ ht1 ht96 hslo hx0hi
  · intro hge hlt
    exact sqrt_u256_panics n hge hlt

/-- Concrete instantiation of the `sqrt_u256` statement: exact root and
iteration bound on a 129-bit input, panic on a near-maximal input. -/
theorem sqrt_u256_correct_witness :
    (2 ^ 128 + 987654321 < (2 ^ 32 - 1) ^ 2 * 2 ^ 192 ∧
      (sqrt_u256 (2 ^ 128 + 987654321) =
          some (Nat.sqrt (2 ^ 128 + 987654321)) ∧
        sqrtU256Iters (2 ^ 128 + 987654321) ≤ 4)) ∧
    ((2 ^ 32 - 1) ^ 2 * 2 ^ 192 ≤ 2 ^ 256 - 5 ∧ 2 ^ 256 - 5 < 2 ^ 256 ∧
      sqrt_u256 (2 ^ 256 - 5) = none) :=
  ⟨⟨by decide,
    (sqrt_u256_correct (2 ^ 128 + 987654321)).1 (by decide)⟩,
   ⟨by decide, by decide,
    (sqrt_u256_correct (2 ^ 256 - 5)).2 (by decide) (by decide)⟩⟩

/-! ## PoS interest accrual (C7) -/

theorem balanceRead_eq (s : State) (a : AddressWithSpace) :
    balanceRead s a =
      (obsBalance s a, { s with cache := populateCache s a }) := by
  unfold balanceRead obsBalance
  rw [show readAccount s a = ((readAccount s a).1, (readAccount s a).2)
    from rfl]
  rw [readAccount_val, readAccount_state, obs_eq_popAccount]

theorem obs_populate_state (s : State) (addr b : AddressWithSpace) :
    State.obs { s with cache := populateCache s addr } b = s.obs b := by
  show obsOf s.db (populateCache s addr) b = s.obs b
  rw [obsOf_populate]
  rfl

theorem obsBalance_populate (s : State) (addr b : AddressWithSpace) :
    obsBalance { s with cache := populateCache s addr } b =
      obsBalance s b := by
  unfold obsBalance
  rw [obs_populate_state]

/-- C7: with no open statistics snapshot, `inc_distributable_pos_interest`
is a no-op exactly when the current block number is beyond one
hour-equivalent in blocks past the last distribution block or when the
total PoS staking tokens are zero; otherwise — on the panic-free domain,
where the circulating-supply subtraction does not underflow, the U256
product stays below the square-root overflow bound
`(2^32 - 1)^2 * 2^192` and the pool addition does not overflow — it adds
`floor(sqrt(circulating * staked * rate * rate)) /
(BLOCKS_PER_YEAR * INVERSE_INTEREST_RATE *
INITIAL_INTEREST_RATE_PER_BLOCK)` to the distributable pool, leaves every
other statistics field and every observable overlay unchanged, where
`circulating` is the total issued tokens minus the balances of the zero
address and the two long-term-lock genesis allocation contracts. -/
theorem inc_distributable_pos_interest_formula (s : State) (n : Nat)
    (hwsc : s.worldStatisticsCheckpoints = []) :
    (s.worldStatistics.lastDistributeBlock + BLOCKS_PER_HOUR < n →
      incDistributablePosInterest s n = some s) ∧
    (s.worldStatistics.totalPosStakingTokens = 0 →
      incDistributablePosInterest s n = some s) ∧
    (n ≤ s.worldStatistics.lastDistributeBlock + BLOCKS_PER_HOUR →
      s.worldStatistics.totalPosStakingTokens ≠ 0 →
      s.worldStatistics.interestRatePerBlock ≠ 0 →
      obsBalance s Address.zeroAddr.withNativeSpace +
          obsBalance s genesisContractAddressFourYear +
          obsBalance s genesisContractAddressTwoYear ≤
        s.worldStatistics.totalIssuedTokens →
      circulatingTokens s * s.worldStatistics.totalPosStakingTokens *
          s.worldStatistics.interestRatePerBlock *
          s.worldStatistics.interestRatePerBlock <
        (2 ^ 32 - 1) ^ 2 * 2 ^ 192 →
      s.worldStatistics.distributablePosInterest +
          Nat.sqrt
              (circulatingTokens s *
                s.worldStatistics.totalPosStakingTokens *
                s.worldStatistics.interestRatePerBlock *
                s.worldStatistics.interestRatePerBlock) /
            (BLOCKS_PER_YEAR * INVERSE_INTEREST_RATE *
              INITIAL_INTEREST_RATE_PER_BLOCK) < 2 ^ 256 →
      ∃ s', incDistributablePosInterest s n = some s' ∧
        s'.worldStatistics =
          { s.worldStatistics with
            distributablePosInterest :=
              s.worldStatistics.distributablePosInterest +
                Nat.sqrt
                    (circulatingTokens s *
                      s.worldStatistics.totalPosStakingTokens *
                      s.worldStatistics.interestRatePerBlock *
                      s.worldStatistics.interestRatePerBlock) /
                  (BLOCKS_PER_YEAR * INVERSE_INTEREST_RATE *
                    INITIAL_INTEREST_RATE_PER_BLOCK) } ∧
        s'.db = s.db ∧ s'.checkpoints = s.checkpoints ∧
        s'.worldStatisticsCheckpoints = [] ∧
        ∀ a, s'.obs a = s.obs a) := by
  refine ⟨?_, ?_, ?_⟩
  · intro hblk
    unfold incDistributablePosInterest
    rw [if_neg (by simp [hwsc]), if_pos hblk]
  · intro hz
    unfold incDistributablePosInterest
    rw [if_neg (by simp [hwsc])]
    by_cases hblk : s.worldStatistics.lastDistributeBlock +
        BLOCKS_PER_HOUR < n
    · rw [if_pos hblk]
    · rw [if_neg hblk, if_pos hz]
  · intro hblk hz hrate hunder hprod hsum
    have hblk' : ¬ (s.worldStatistics.lastDistributeBlock +
        BLOCKS_PER_HOUR < n) := by omega
    have hb0 := balanceRead_eq s Address.zeroAddr.withNativeSpace
    set s1 : State :=
      { s with cache := populateCache s Address.zeroAddr.withNativeSpace }
      with hs1
    have hb4 := balanceRead_eq s1 genesisContractAddressFourYear
    set s2 : State :=
      { s1 with cache := populateCache s1 genesisContractAddressFourYear }
      with hs2
    have hb2 := balanceRead_eq s2 genesisContractAddressTwoYear
    set s3 : State :=
      { s2 with cache := populateCache s2 genesisContractAddressTwoYear }
      with hs3
    have hob4 : obsBalance s1 genesisContractAddressFourYear =
        obsBalance s genesisContractAddressFourYear := by
      rw [hs1, obsBalance_populate]
    have hob2 : obsBalance s2 genesisContractAddressTwoYear =
        obsBalance s genesisContractAddressTwoYear := by
      rw [hs2, obsBalance_populate, hs1, obsBalance_populate]
    rw [hob4] at hb4
    rw [hob2] at hb2
    refine ⟨{ s3 with
        worldStatistics :=
          { s.worldStatistics with
            distributablePosInterest :=
              s.worldStatistics.distributablePosInterest +
                Nat.sqrt
                    (circulatingTokens s *
                      s.worldStatistics.totalPosStakingTokens *
                      s.worldStatistics.interestRatePerBlock *
                      s.worldStatistics.interestRatePerBlock) /
                  (BLOCKS_PER_YEAR * INVERSE_INTEREST_RATE *
                    INITIAL_INTEREST_RATE_PER_BLOCK) } }, ?_, rfl, rfl, rfl,
      hwsc, ?_⟩
    · unfold incDistributablePosInterest
      rw [if_neg (by simp [hwsc]), if_neg hblk', if_neg hz]
      rw [hb0]
      dsimp only
      rw [hb4]
      dsimp only
      rw [hb2]
      dsimp only
      have hcirc : s.worldStatistics.totalIssuedTokens -
          obsBalance s Address.zeroAddr.withNativeSpace -
          obsBalance s genesisContractAddressFourYear -
          obsBalance s genesisContractAddressTwoYear =
          circulatingTokens s := rfl
      rw [hcirc]
      have hr1 : 0 < s.worldStatistics.interestRatePerBlock :=
        Nat.pos_of_ne_zero hrate
      have hboundlt : ((2:Nat) ^ 32 - 1) ^ 2 * 2 ^ 192 < 2 ^ 256 := by
        norm_num
      have hp1le : circulatingTokens s *
          s.worldStatistics.totalPosStakingTokens ≤
          circulatingTokens s * s.worldStatistics.totalPosStakingTokens *
            s.worldStatistics.interestRatePerBlock :=
        Nat.le_mul_of_pos_right _ hr1
      have hp2le : circulatingTokens s *
          s.worldStatistics.totalPosStakingTokens *
          s.worldStatistics.interestRatePerBlock ≤
          circulatingTokens s * s.worldStatistics.totalPosStakingTokens *
            s.worldStatistics.interestRatePerBlock *
            s.worldStatistics.interestRatePerBlock :=
        Nat.le_mul_of_pos_right _ hr1
      rw [if_neg (show ¬ 2 ^ 256 ≤ circulatingTokens s *
        s.worldStatistics.totalPosStakingTokens by omega)]
      rw [if_neg (show ¬ 2 ^ 256 ≤ circulatingTokens s *
        s.worldStatistics.totalPosStakingTokens *
        s.worldStatistics.interestRatePerBlock by omega)]
      rw [if_neg (show ¬ 2 ^ 256 ≤ circulatingTokens s *
        s.worldStatistics.totalPosStakingTokens *
        s.worldStatistics.interestRatePerBlock *
        s.worldStatistics.interestRatePerBlock by omega)]
      rw [sqrt_u256_eq_sqrt _ hprod]
      dsimp only
      rw [if_neg (show ¬ 2 ^ 256 ≤
        s.worldStatistics.distributablePosInterest +
          Nat.sqrt (circulatingTokens s *
            s.worldStatistics.totalPosStakingTokens *
            s.worldStatistics.interestRatePerBlock *
            s.worldStatistics.interestRatePerBlock) /
          (BLOCKS_PER_YEAR * INVERSE_INTEREST_RATE *
            INITIAL_INTEREST_RATE_PER_BLOCK) by omega)]
    · intro a
      show State.obs s3 a = s.obs a
      rw [hs3, obs_populate_state, hs2, obs_populate_state, hs1,
        obs_populate_state]

/-- C7 witness: on a state with 4 staked tokens and a 100-Drip supply,
accrual at block 90000 (beyond one hour past the last distribution at
block 0) is a no-op, and accrual at block 5 succeeds. -/
theorem inc_distributable_pos_interest_formula_witness :
    incDistributablePosInterest exC7 90000 = some exC7 ∧
    (incDistributablePosInterest exC7 5).isSome = true := by
  refine ⟨(inc_distributable_pos_interest_formula exC7 90000 rfl).1
    (by decide), ?_⟩
  have hsum : exC7.worldStatistics.distributablePosInterest +
      Nat.sqrt (circulatingTokens exC7 *
        exC7.worldStatistics.totalPosStakingTokens *
        exC7.worldStatistics.interestRatePerBlock *
        exC7.worldStatistics.interestRatePerBlock) /
      (BLOCKS_PER_YEAR * INVERSE_INTEREST_RATE *
        INITIAL_INTEREST_RATE_PER_BLOCK) < 2 ^ 256 := by
    have h1 := Nat.sqrt_le_self (circulatingTokens exC7 *
      exC7.worldStatistics.totalPosStakingTokens *
      exC7.worldStatistics.interestRatePerBlock *
      exC7.worldStatistics.interestRatePerBlock)
    have h2 := Nat.div_le_self (Nat.sqrt (circulatingTokens exC7 *
      exC7.worldStatistics.totalPosStakingTokens *
      exC7.worldStatistics.interestRatePerBlock *
      exC7.worldStatistics.interestRatePerBlock))
      (BLOCKS_PER_YEAR * INVERSE_INTEREST_RATE *
        INITIAL_INTEREST_RATE_PER_BLOCK)
    have h3 : circulatingTokens exC7 *
        exC7.worldStatistics.totalPosStakingTokens *
        exC7.worldStatistics.interestRatePerBlock *
        exC7.worldStatistics.interestRatePerBlock = 1587600 := by decide
    have h4 : exC7.worldStatistics.distributablePosInterest = 7 := rfl
    have h5 : (7:Nat) + 1587600 < 2 ^ 256 := by norm_num
    rw [h3] at h1 h2 ⊢
    rw [h4]
    omega
  obtain ⟨s', h1, -, -, -, -, -⟩ :=
    (inc_distributable_pos_interest_formula exC7 5 rfl).2.2 (by decide)
      (by decide) (by decide) (by decide) (by decide) hsum
  rw [h1]
  rfl

/-! ## Root computation idempotence (C6) -/

/-- C6: with no open checkpoint scope, `compute_state_root` succeeds,
leaves the cache empty, and calling it again with no intervening
mutation succeeds and produces the same state root. -/
theorem compute_state_root_idempotent (s : State)
    (hck : s.checkpoints = [])
    (hwsc : s.worldStatisticsCheckpoints = []) :
    ∃ r s1, computeStateRoot s = some (r, s1) ∧ s1.cache = [] ∧
      ∃ s2, computeStateRoot s1 = some (r, s2) := by
  have h1 : ¬ (s.checkpoints ≠ []) := by simp [hck]
  have h2 : ¬ (s.worldStatisticsCheckpoints ≠ []) := by simp [hwsc]
  unfold computeStateRoot
  rw [if_neg h1, if_neg h2]
  refine ⟨_, _, rfl, rfl, ?_⟩
  rw [if_neg (by simpa using h1), if_neg (by simpa using h2)]
  exact ⟨_, rfl⟩

/-- C6 witness: the empty state commits twice with the same root. -/
theorem compute_state_root_idempotent_witness :
    emptyState.checkpoints = [] ∧
    emptyState.worldStatisticsCheckpoints = [] ∧
    (∃ r s1, computeStateRoot emptyState = some (r, s1) ∧ s1.cache = [] ∧
      ∃ s2, computeStateRoot s1 = some (r, s2)) :=
  ⟨rfl, rfl, compute_state_root_idempotent emptyState rfl rfl⟩

end ConfluxState
